import Mathlib

/-!
# Ogg page and packet codec

A shallow embedding of package `ogg` (file `ogg/ogg.go`) and of the parts of package
`vorbiscomment` (files `vorbiscomment/comment.go` and `vorbiscomment/metadata_block_picture.go`)
that read and build the comment header and the picture block, and theorems about them.

Conventions of the embedding.

* A Go `byte`, `uint32` or `uint64` is a `Nat`; every operation that truncates in Go
  reduces modulo the width explicitly.  A Go `int` is an `Int` (`int` is taken to be
  64 bits wide, as on amd64 and arm64; lengths are `Nat`).
* A `[]byte` is a `List Nat`, a `[]int` is a `List Int`; a nil slice and an empty slice
  are both `[]`.
* An `io.Reader` over a finite stream is the list of bytes it has not delivered yet.
* An `io.Writer` records what it took from the argument of every `Write` call; a call that
  fails may have consumed any initial part of its argument.
* The checksum table is a parameter `crcTable` of every function that uses it; where a
  property depends on the entries, the table is `crcTableOf poly`, derived from a polynomial.
* A run-time panic is `Except.error` of a `Panic`; an `error` return value is an `Err`.
* The scratch buffers `PageDecoder.buf` and `PageEncoder.buf` are not part of the state:
  every cell that `ReadPage` or `WritePage` reads from its buffer has been written
  earlier in the same call, so the result never depends on what earlier calls left there.
-/

namespace Ogg

/-! ## Constants -/

/-- Modelled from the spec: the constant `headsz` is declared outside `ogg.go`; the page
layout has a "27-byte fixed header". -/
def headsz : Nat := 27

/-- Modelled from the spec: the constant `mss` (maximum segment size) is declared outside
`ogg.go`; a segment is a "≤255-byte chunk" and packets are split "into maximal 255-byte
segments". -/
def mss : Nat := 255

/-- Modelled from the spec: the flag `COP` is declared outside `ogg.go`; the layout gives
"bit0=continuation". -/
def COP : Nat := 1

/-- Modelled from the spec: the flag `BOS` is declared outside `ogg.go`; the layout gives
"bit1=beginning-of-stream". -/
def BOS : Nat := 2

/-- Modelled from the spec: the flag `EOS` is declared outside `ogg.go`; the layout gives
"bit2=end-of-stream". -/
def EOS : Nat := 4

/-- The capture pattern "OggS" that `ReadPage` compares with and `WritePage` emits. -/
def capturePattern : List Nat := [0x4F, 0x67, 0x67, 0x53]

/-! ## Errors and panics -/

/-- The `error` values the package returns. -/
inductive Err where
  /-- The value `io.EOF`: the stream had no byte left when a read started. -/
  | EOF
  /-- The value `io.ErrUnexpectedEOF`: the stream ended inside a read. -/
  | ErrUnexpectedEOF
  /-- The error "data does not start with capture pattern". -/
  | badCapturePattern
  /-- The error "ogg version is non-zero". -/
  | nonZeroVersion
  /-- The error "invalid crc: expected 0x%X, field was 0x%X". -/
  | invalidCrc (expected field : Nat)
  /-- The error "segment table too long". -/
  | segTableTooLong
  /-- The error a failing `io.Writer` returns. -/
  | writeFailed
  deriving DecidableEq, Repr

/-- The run-time panics the package can raise. -/
inductive Panic where
  /-- A slice expression with bounds out of range. -/
  | sliceBounds
  /-- An index expression out of range. -/
  | indexOutOfRange
  /-- A store or load through a nil pointer. -/
  | nilDereference
  deriving DecidableEq, Repr

/-! ## Data model -/

/-- The struct `Page`.  The field `Type` is called `Typ` here. -/
structure Page where
  Typ : Nat
  Granule : Nat
  Serial : Nat
  Sequence : Nat
  Crc : Nat
  SegTable : List Int
  Data : List Nat
  deriving DecidableEq, Repr

/-! ## Byte order -/

namespace byteOrder

/-- Modelled from the spec: the variable `byteOrder` is declared outside `ogg.go`; the
layout has "big-endian multi-byte fields".  `Uint32` reads four bytes. -/
def Uint32 (b : List Nat) : Nat :=
  b.getD 0 0 * 16777216 + b.getD 1 0 * 65536 + b.getD 2 0 * 256 + b.getD 3 0

/-- Modelled from the spec: big-endian `Uint64` of `byteOrder`, reading eight bytes. -/
def Uint64 (b : List Nat) : Nat :=
  b.getD 0 0 * 72057594037927936 + b.getD 1 0 * 281474976710656
    + b.getD 2 0 * 1099511627776 + b.getD 3 0 * 4294967296
    + b.getD 4 0 * 16777216 + b.getD 5 0 * 65536 + b.getD 6 0 * 256 + b.getD 7 0

/-- Modelled from the spec: big-endian `PutUint32` of `byteOrder`, the four bytes stored. -/
def PutUint32 (v : Nat) : List Nat :=
  [v / 16777216 % 256, v / 65536 % 256, v / 256 % 256, v % 256]

/-- Modelled from the spec: big-endian `PutUint64` of `byteOrder`, the eight bytes stored. -/
def PutUint64 (v : Nat) : List Nat :=
  [v / 72057594037927936 % 256, v / 281474976710656 % 256, v / 1099511627776 % 256,
   v / 4294967296 % 256, v / 16777216 % 256, v / 65536 % 256, v / 256 % 256, v % 256]

end byteOrder

/-! ## Checksum -/

/-- The function `extendCrc32`.  The table `crcTable` is declared outside `ogg.go` and is a
parameter: `crcTable i` is the entry at index `i`, a `uint32`. -/
def extendCrc32 (crcTable : Nat → Nat) (c : Nat) (d : List Nat) : Nat :=
  d.foldl (fun c n => (crcTable (((c >>> 24) % 256) ^^^ n) % 4294967296)
    ^^^ ((c <<< 8) % 4294967296)) c

/-- Modelled from the spec: the function `crc32` is declared outside `ogg.go`;
"Checksum(bytes) = ExtendChecksum(0, bytes)".  The comment on `extendCrc32` in `ogg.go` agrees:
"crc32 but starting at whatever the parameter is instead of 0". -/
def crc32 (crcTable : Nat → Nat) (d : List Nat) : Nat :=
  extendCrc32 crcTable 0 d

/-- Modelled from the spec: the table `crcTable` is declared outside `ogg.go`; it is "a
256-entry lookup derived once from a fixed" 32-bit polynomial.  One step of the derivation of
an entry: the 32-bit register is shifted left by one bit, and the polynomial is added to it
when the bit shifted out is set. -/
def crcTableOf.shift (poly r : Nat) : Nat :=
  if r &&& 0x80000000 ≠ 0 then ((r <<< 1) % 4294967296) ^^^ poly else (r <<< 1) % 4294967296

/-- Modelled from the spec: entry `i` of the table derived from the polynomial `poly`, which is
the register after the byte `i`, placed in its top eight bits, has been shifted out bit by
bit.  With this table the update `table[(seed >> 24) xor b] xor (seed << 8)` of `extendCrc32`
is the bitwise division of the message by the polynomial, high bit first. -/
def crcTableOf (poly i : Nat) : Nat := (crcTableOf.shift poly)^[8] (i <<< 24)

/-- The generator polynomial of the checksum of the Ogg container format (RFC 3533), x^32 +
x^26 + x^23 + x^22 + x^16 + x^12 + x^11 + x^10 + x^8 + x^7 + x^5 + x^4 + x^2 + x + 1, without
its leading term.  The specification names the format and leaves the polynomial unnamed; the
general theorems hold for every polynomial with constant term 1, and this one is used where a
table is evaluated on concrete bytes. -/
def oggPolynomial : Nat := 0x04c11db7

/-! ## Readers and writers -/

/-- The function `io.ReadFull` on a reader that delivers the bytes `r` and then reports end
of file: reads exactly `n` bytes, or fails with `io.EOF` when no byte was read and with
`io.ErrUnexpectedEOF` when some but not all were.  The second component is what the reader
still holds. -/
def readFull (r : List Nat) (n : Nat) : Except Err (List Nat) × List Nat :=
  if n ≤ r.length then (.ok (r.take n), r.drop n)
  else if r.length = 0 then (.error .EOF, [])
  else (.error .ErrUnexpectedEOF, [])

/-- An `io.Writer`.  The list `written` has one entry for every `Write` call made so far, in
order: the bytes of the argument that the writer took, which is the whole argument of a call
that succeeded and the initial part consumed by a call that failed.  `failAfter` is the number
of calls that still succeed before one fails (`none`: the writer never fails), and `short` is
the number of bytes a failing call consumes before it returns its error (the whole argument
when it has no more bytes than that). -/
structure Writer where
  written : List (List Nat)
  failAfter : Option Nat
  short : Nat
  deriving DecidableEq, Repr

/-- One `Write` call: the writer afterwards and the error returned.  The count of bytes
written that `Write` also returns is not modelled: every caller in `ogg.go` discards it. -/
def Writer.Write (w : Writer) (b : List Nat) : Writer × Option Err :=
  match w.failAfter with
  | none => ({ w with written := w.written ++ [b] }, none)
  | some 0 => ({ w with written := w.written ++ [b.take w.short] }, some .writeFailed)
  | some (k + 1) => ({ w with written := w.written ++ [b], failAfter := some k }, none)

/-- All bytes a writer has received. -/
def Writer.bytes (w : Writer) : List Nat := w.written.flatten

/-- A writer that never fails and has received nothing. -/
def Writer.fresh : Writer := { written := [], failAfter := none, short := 0 }

/-! ## Pages -/

/-- The method `PageDecoder.ReadPage`, on the bytes `r` the backing reader holds.  Returns
the page or the error, and what the reader still holds afterwards. -/
def ReadPage (crcTable : Nat → Nat) (r : List Nat) : Except Err Page × List Nat :=
  match readFull r headsz with
  | (.error e, r1) => (.error e, r1)
  | (.ok header, r1) =>
    if header.take 4 ≠ capturePattern then (.error .badCapturePattern, r1)
    else if header.getD 4 0 ≠ 0 then (.error .nonZeroVersion, r1)
    else
      let typ := header.getD 5 0
      let granule := byteOrder.Uint64 ((header.drop 6).take 8)
      let serial := byteOrder.Uint32 ((header.drop 14).take 4)
      let sequence := byteOrder.Uint32 ((header.drop 18).take 4)
      let crc := byteOrder.Uint32 ((header.drop 22).take 4)
      let nseg := header.getD 26 0
      let header0 := header.take 22 ++ [0, 0, 0, 0] ++ header.drop 26
      let tCrc := extendCrc32 crcTable 0 header0
      match readFull r1 nseg with
      | (.error e, r2) => (.error e, r2)
      | (.ok segtbl, r2) =>
        let tCrc := extendCrc32 crcTable tCrc segtbl
        let segTable : List Int := segtbl.map Int.ofNat
        let dsize := segtbl.sum
        match readFull r2 dsize with
        | (.error e, r3) => (.error e, r3)
        | (.ok data, r3) =>
          let tCrc := extendCrc32 crcTable tCrc data
          if tCrc ≠ crc then (.error (.invalidCrc tCrc crc), r3)
          else
            (.ok { Typ := typ, Granule := granule, Serial := serial, Sequence := sequence,
                   Crc := crc, SegTable := segTable, Data := data }, r3)

/-- The header and segment table `WritePage` assembles in its buffer (`e.buf[:pos]`), with
the checksum field holding `crc`. -/
def WritePage.head (p : Page) (crc : Nat) : List Nat :=
  capturePattern ++ [0, p.Typ] ++ byteOrder.PutUint64 p.Granule
    ++ byteOrder.PutUint32 p.Serial ++ byteOrder.PutUint32 p.Sequence
    ++ byteOrder.PutUint32 crc ++ [p.SegTable.length % 256]
    ++ p.SegTable.map (fun s => (s % 256).toNat)

/-- The checksum `WritePage` computes for a page. -/
def WritePage.crc (crcTable : Nat → Nat) (p : Page) : Nat :=
  extendCrc32 crcTable (crc32 crcTable (WritePage.head p 0)) p.Data

/-- The method `PageEncoder.WritePage`: the writer afterwards and the error returned. -/
def WritePage (crcTable : Nat → Nat) (w : Writer) (p : Page) : Writer × Option Err :=
  if p.SegTable.length > 255 then (w, some .segTableTooLong)
  else
    match w.Write (WritePage.head p (WritePage.crc crcTable p)) with
    | (w1, some e) => (w1, some e)
    | (w1, none) => w1.Write p.Data

/-- The loop of `SplitPage` that sums the segment lengths before `segmentIndex`; `rest` is
`p.SegTable[i:]`. -/
def SplitPage.sumLoop (segmentIndex : Int) : List Int → Nat → Int → Int
  | [], _, ds => ds
  | s :: rest, i, ds =>
    if (i : Int) < segmentIndex then SplitPage.sumLoop segmentIndex rest (i + 1) (ds + s)
    else ds

/-- The function `SplitPage`.  The slice expressions `p.Data[ds:]` and `p.Data[:ds]` panic
when `ds` is negative or exceeds the length of `p.Data`. -/
def SplitPage (p : Page) (segmentIndex : Int) : Except Panic (Page × Page) :=
  let segmentIndex : Int :=
    if segmentIndex < 0 then 0
    else if segmentIndex > p.SegTable.length then p.SegTable.length
    else segmentIndex
  let ds := SplitPage.sumLoop segmentIndex p.SegTable 0 0
  if ds < 0 ∨ ds > p.Data.length then .error .sliceBounds
  else
    .ok ({ p with SegTable := p.SegTable.take segmentIndex.toNat, Data := p.Data.take ds.toNat },
         { p with SegTable := p.SegTable.drop segmentIndex.toNat, Data := p.Data.drop ds.toNat })

/-! ## Packets -/

/-- The scanning loop of `ReadPacket`: the index of the first entry below 255, counted from
`i` for the entries `p.SegTable[i:]`. -/
def ReadPacket.scan : List Int → Nat → Option Nat
  | [], _ => none
  | s :: rest, i => if s < 255 then some i else ReadPacket.scan rest (i + 1)

/-- The function `ReadPacket`.  The argument `packet` is the pointer: `none` is the nil
pointer, `some b` points to a buffer holding `b`.  The result holds `finished`, `fragment`,
`remainder` and the buffer afterwards.  With a 64-bit `int`, `math.MaxInt32 + 1` is
2147483648.  Both branches on `packet == nil` store through `packet`. -/
def ReadPacket (p : Page) (packet : Option (List Nat)) :
    Except Panic (Bool × Page × Page × List Nat) :=
  let found := ReadPacket.scan p.SegTable 0
  let finished := found.isSome
  let pb : Int := match found with
    | some i => (i : Int)
    | none => -1
  let pb : Int := if pb < 0 then 2147483647 else pb
  match SplitPage p (pb + 1) with
  | .error e => .error e
  | .ok (p1, remainder) =>
    match packet with
    | none => .error .nilDereference
    | some b => .ok (finished, p1, remainder, b ++ p1.Data)

/-- The inner loop of `WritePacket` that counts the segments of the next page. -/
def WritePacket.countSegs (len mstPos cstlen : Nat) : Nat :=
  if cstlen < 255 ∧ mstPos + cstlen < len then WritePacket.countSegs len mstPos (cstlen + 1)
  else cstlen
termination_by 255 - cstlen

/-- What `WritePacket` hands back: the writer afterwards, the pages for which `WritePage`
returned no error (in order), the sequence number returned and the error returned. -/
structure WriteResult where
  writer : Writer
  pages : List Page
  next : Nat
  err : Option Err
  deriving DecidableEq, Repr

/-- The page loop of `WritePacket` (`for mstPos < len(masterSegTbl)`), from the state `seqa`,
`dPos`, `mstPos`.  The list `emitted` is not a variable of the Go function: it records the
pages handed to `WritePage` so far.  The index expression `p.SegTable[len(p.SegTable)-1]`
panics on an empty table, and the slice expression `(*packet)[dPos : dPos+dLen]` is taken to
panic when it reaches past the length of the packet. -/
def WritePacket.loop (crcTable : Nat → Nat) (packet : List Nat)
    (granule serial sequenceStart flags : Nat) (masterSegTbl : List Int)
    (w : Writer) (emitted : List Page) (seqa dPos mstPos : Nat) : Except Panic WriteResult :=
  if _hpos : mstPos < masterSegTbl.length then
    let typ : Nat :=
      if mstPos ≠ 0 then 0 ||| COP
      else if flags &&& BOS ≠ 0 then 0 ||| BOS
      else 0
    let cstlen := WritePacket.countSegs masterSegTbl.length mstPos 0
    let segTable := (masterSegTbl.drop mstPos).take cstlen
    let mstPos1 := mstPos + cstlen
    let granule1 := if mstPos1 ≥ masterSegTbl.length then granule else 18446744073709551615
    let typ1 :=
      if mstPos1 ≥ masterSegTbl.length ∧ flags &&& EOS ≠ 0 then typ ||| EOS else typ
    match segTable.getLast? with
    | none => .error .indexOutOfRange
    | some lastSeg =>
      let dLen : Int := ((segTable.length : Int) * 255 - 255) + lastSeg
      if dLen < 0 ∨ (dPos : Int) + dLen > packet.length then .error .sliceBounds
      else
        let p : Page :=
          { Typ := typ1, Granule := granule1, Serial := serial,
            Sequence := (sequenceStart + seqa) % 4294967296, Crc := 0,
            SegTable := segTable, Data := (packet.drop dPos).take dLen.toNat }
        match WritePage crcTable w p with
        | (w1, some e) => .ok { writer := w1, pages := emitted, next := 0, err := some e }
        | (w1, none) =>
          WritePacket.loop crcTable packet granule serial sequenceStart flags masterSegTbl
            w1 (emitted ++ [p]) ((seqa + 1) % 4294967296) (dPos + dLen.toNat) mstPos1
  else
    .ok { writer := w, pages := emitted, next := (sequenceStart + seqa) % 4294967296,
          err := none }
termination_by masterSegTbl.length - mstPos
decreasing_by
  have mono : ∀ c, c ≤ WritePacket.countSegs masterSegTbl.length mstPos c := by
    intro c
    induction c using WritePacket.countSegs.induct masterSegTbl.length mstPos with
    | case1 c h ih => rw [WritePacket.countSegs, if_pos h]; omega
    | case2 c h => rw [WritePacket.countSegs, if_neg h]
  have step : 1 ≤ WritePacket.countSegs masterSegTbl.length mstPos 0 := by
    rw [WritePacket.countSegs, if_pos ⟨by omega, by omega⟩]
    exact mono 1
  omega

/-- The table `masterSegTbl` that `WritePacket` builds for a packet of length `n`. -/
def WritePacket.masterSegTbl (n : Nat) : List Int :=
  (List.replicate (n / mss + 1) (mss : Int)).set (n / mss) ((n % mss : Nat) : Int)

/-- The function `WritePacket`, writing to `w`; `packet` is the slice the pointer argument
points to. -/
def WritePacket (crcTable : Nat → Nat) (w : Writer) (packet : List Nat)
    (granule serial sequenceStart flags : Nat) : Except Panic WriteResult :=
  WritePacket.loop crcTable packet granule serial sequenceStart flags
    (WritePacket.masterSegTbl packet.length) w [] 0 0 0

/-! ## Auxiliary definitions used in the statements and proofs -/

/-- The 27 header bytes of a page, with `crc` in the checksum field. -/
def headerBytes (p : Page) (crc : Nat) : List Nat :=
  capturePattern ++ [0, p.Typ] ++ byteOrder.PutUint64 p.Granule
    ++ byteOrder.PutUint32 p.Serial ++ byteOrder.PutUint32 p.Sequence
    ++ byteOrder.PutUint32 crc ++ [p.SegTable.length % 256]

/-- The segment table bytes of a page. -/
def segBytes (p : Page) : List Nat := p.SegTable.map (fun s => (s % 256).toNat)

/-- The page `ReadPage` returns for the encoding of `p`. -/
def Page.decoded (crcTable : Nat → Nat) (p : Page) : Page :=
  { p with Granule := p.Granule % 18446744073709551616, Serial := p.Serial % 4294967296,
           Sequence := p.Sequence % 4294967296, Crc := WritePage.crc crcTable p }

/-- The bytes `WritePage` emits for `p`. -/
def Page.encode (crcTable : Nat → Nat) (p : Page) : List Nat :=
  WritePage.head p (WritePage.crc crcTable p) ++ p.Data

/-- The number of pages `WritePacket` emits for a packet of length `n`. -/
def WritePacket.numPages (n : Nat) : Nat := (n / 255 + 1 + 254) / 255

/-- The `k`-th page (counting from 0) `WritePacket` emits, in closed form. -/
def WritePacket.pageAt (packet : List Nat) (granule serial sequenceStart flags k : Nat) :
    Page :=
  let typ : Nat := if k ≠ 0 then COP else if flags &&& BOS ≠ 0 then BOS else 0
  { Typ := if packet.length / 255 + 1 ≤ 255 * (k + 1) ∧ flags &&& EOS ≠ 0 then typ ||| EOS
           else typ,
    Granule := if packet.length / 255 + 1 ≤ 255 * (k + 1) then granule
               else 18446744073709551615,
    Serial := serial,
    Sequence := (sequenceStart + k) % 4294967296,
    Crc := 0,
    SegTable := ((WritePacket.masterSegTbl packet.length).drop (255 * k)).take 255,
    Data := (packet.drop (65025 * k)).take 65025 }

/-- The writer after `WritePage` has written the pages `ps` to a writer that never fails. -/
def Writer.afterPages (crcTable : Nat → Nat) (w : Writer) (ps : List Page) : Writer :=
  { w with written := w.written ++
      (ps.map (fun p => [WritePage.head p (WritePage.crc crcTable p), p.Data])).flatten }

/-- A page with one segment of one byte, whose encoding has 29 bytes. -/
def Page.oneByte : Page :=
  { Typ := 0, Granule := 0, Serial := 0, Sequence := 0, Crc := 0, SegTable := [1], Data := [7] }

/-- Decoding a stream page by page: `ReadPage` is called as long as the reader holds bytes.
The result is the list of pages when every call succeeds, and `none` when a call fails or when
bytes are left after `fuel` calls. -/
def readPages (crcTable : Nat → Nat) : Nat → List Nat → Option (List Page)
  | _, [] => some []
  | 0, _ :: _ => none
  | fuel + 1, b :: r =>
    match ReadPage crcTable (b :: r) with
    | (.ok p, r1) => (readPages crcTable fuel r1).map (fun ps => p :: ps)
    | (.error _, _) => none

/-- Calling `ReadPacket` on each page in order, every call with the packet buffer the call
before left: the `finished`, `fragment` and `remainder` of every call, and the buffer at the
end. -/
def readPackets : List Page → List Nat → Except Panic (List (Bool × Page × Page) × List Nat)
  | [], buf => .ok ([], buf)
  | p :: ps, buf =>
    match ReadPacket p (some buf) with
    | .error e => .error e
    | .ok (finished, fragment, remainder, buf1) =>
      match readPackets ps buf1 with
      | .error e => .error e
      | .ok (rs, buf2) => .ok ((finished, fragment, remainder) :: rs, buf2)

/-- A small well-formed page: two segments, three data bytes. -/
def Page.small : Page :=
  { Typ := 2, Granule := 5, Serial := 7, Sequence := 9, Crc := 0, SegTable := [2, 1],
    Data := [10, 11, 12] }

/-- A writer that has received nothing and whose second `Write` call fails without
consuming a byte. -/
def Writer.failingSecond : Writer := { written := [], failAfter := some 1, short := 0 }

/-- A writer that has received nothing and whose first `Write` call fails after it has
consumed five bytes. -/
def Writer.failingFirst : Writer := { written := [], failAfter := some 0, short := 5 }

/-- The function `binary.LittleEndian.PutUint32` of the Go library: the four bytes stored. -/
def littleEndian.PutUint32 (v : Nat) : List Nat :=
  [v % 256, v / 256 % 256, v / 65536 % 256, v / 16777216 % 256]

/-- The function `binary.LittleEndian.Uint32` of the Go library, reading four bytes. -/
def littleEndian.Uint32 (b : List Nat) : Nat :=
  b.getD 0 0 + b.getD 1 0 * 256 + b.getD 2 0 * 65536 + b.getD 3 0 * 16777216

/-- The string "image/jpeg", as bytes. -/
def imageJpeg : List Nat := [105, 109, 97, 103, 101, 47, 106, 112, 101, 103]

/-- The string "image/png", as bytes. -/
def imagePng : List Nat := [105, 109, 97, 103, 101, 47, 112, 110, 103]

/-- The errors `GenerateImageComment` returns. -/
inductive ImageErr where
  /-- The error "not a recognized image format". -/
  | notRecognized
  /-- The error of `jpeg.DecodeConfig` or `png.DecodeConfig`. -/
  | decodeFailed
  deriving DecidableEq, Repr

/-- The function `GenerateImageComment` of `metadata_block_picture.go`.  The calls into the Go
library are parameters: `mimeType` is what `http.DetectContentType` returns for `img`, and
`conf` is what `jpeg.DecodeConfig` or `png.DecodeConfig` returns for it, `none` for an error and
`some (Width, Height)` otherwise.  The result is the frame `mbp`; the Go function returns
"METADATA_BLOCK_PICTURE=" followed by its standard base64 encoding, which decodes to `mbp`. -/
def GenerateImageComment (mimeType : List Nat) (conf : Option (Int × Int))
    (img imgDescription : List Nat) (imgType : Nat) : Except ImageErr (List Nat) :=
  if mimeType = imageJpeg ∨ mimeType = imagePng then
    match conf with
    | none => .error .decodeFailed
    | some (width, _) =>
      .ok (littleEndian.PutUint32 imgType
        ++ littleEndian.PutUint32 (mimeType.length % 4294967296)
        ++ mimeType
        ++ littleEndian.PutUint32 (imgDescription.length % 4294967296)
        ++ imgDescription
        ++ littleEndian.PutUint32 (width % 4294967296).toNat
        ++ littleEndian.PutUint32 (width % 4294967296).toNat
        ++ littleEndian.PutUint32 8
        ++ littleEndian.PutUint32 0
        ++ littleEndian.PutUint32 (img.length % 4294967296)
        ++ img)
  else .error .notRecognized

/-- The struct `OggVorbis` of `comment.go`.  The array `headerPacket` of three byte slices is a
list of three byte lists; a Go string is the list of its bytes. -/
structure OggVorbis where
  headerPacket : List (List Nat)
  postPages : List Page
  VendorString : List Nat
  Comments : List (List Nat)
  deriving DecidableEq, Repr

/-- The errors `ReadOggVorbis` builds itself. -/
inductive VorbisErr where
  /-- The error "second packet is not a vorbis header packet". -/
  | notVorbisHeader
  /-- The error "header is not a comment header packet". -/
  | notCommentHeader
  /-- The error "framing bit unset or missing". -/
  | framingBit
  /-- An error of `ReadPage` other than the two end-of-file values. -/
  | page (e : Err)
  deriving DecidableEq, Repr

/-- The string "vorbis", as bytes. -/
def vorbisMagic : List Nat := [0x76, 0x6f, 0x72, 0x62, 0x69, 0x73]

/-- The function `updateCommentFieldPacket` of `comment.go`. -/
def updateCommentFieldPacket (o : OggVorbis) : OggVorbis :=
  let p : List Nat := [0x3, 0x76, 0x6f, 0x72, 0x62, 0x69, 0x73]
  let p := p ++ littleEndian.PutUint32 (o.VendorString.length % 4294967296)
  let p := p ++ o.VendorString
  let p := p ++ littleEndian.PutUint32 (o.Comments.length % 4294967296)
  let p := o.Comments.foldl
    (fun p r => p ++ littleEndian.PutUint32 (r.length % 4294967296) ++ r) p
  let p := p ++ [1]
  { o with headerPacket := o.headerPacket.set 1 p }

/-- The slice expression `b[lo:hi]` on a byte slice whose capacity is its length; it panics
unless `lo ≤ hi ≤ len(b)`. -/
def sliceBytes (b : List Nat) (lo hi : Nat) : Except Panic (List Nat) :=
  if lo ≤ hi ∧ hi ≤ b.length then .ok ((b.drop lo).take (hi - lo)) else .error .sliceBounds

/-- The loop of `ReadOggVorbis` that reads the comments, with `n` iterations left and the
`uint32` position `pos`: the comments read and the position afterwards. -/
def ReadOggVorbis.readComments (hp : List Nat) : Nat → Nat → Except Panic (List (List Nat) × Nat)
  | 0, pos => .ok ([], pos)
  | n + 1, pos =>
    match sliceBytes hp pos ((pos + 4) % 4294967296) with
    | .error e => .error e
    | .ok lenBytes =>
      let taglen := littleEndian.Uint32 lenBytes
      let pos := (pos + 4) % 4294967296
      match sliceBytes hp pos ((pos + taglen) % 4294967296) with
      | .error e => .error e
      | .ok text =>
        let pos := (pos + taglen) % 4294967296
        match ReadOggVorbis.readComments hp n pos with
        | .error e => .error e
        | .ok (rest, pos) => .ok (text :: rest, pos)

/-- The part of `ReadOggVorbis` after the page loop, which parses the comment header in
`headerPacket[1]`. -/
def ReadOggVorbis.parseHeader (oggv : OggVorbis) : Except Panic (Except VorbisErr OggVorbis) :=
  let hp := oggv.headerPacket.getD 1 []
  match sliceBytes hp 1 7 with
  | .error e => .error e
  | .ok magic =>
    if magic ≠ vorbisMagic then .ok (.error .notVorbisHeader)
    else
      match sliceBytes hp 0 1 with
      | .error e => .error e
      | .ok first =>
        if first.getD 0 0 ≠ 3 then .ok (.error .notCommentHeader)
        else
          match sliceBytes hp 7 11 with
          | .error e => .error e
          | .ok venBytes =>
            let ven_len := littleEndian.Uint32 venBytes
            let pos := 11
            match sliceBytes hp pos ((pos + ven_len) % 4294967296) with
            | .error e => .error e
            | .ok vendor =>
              let pos := (pos + ven_len) % 4294967296
              match sliceBytes hp pos ((pos + 4) % 4294967296) with
              | .error e => .error e
              | .ok countBytes =>
                let count := littleEndian.Uint32 countBytes
                let pos := (pos + 4) % 4294967296
                match ReadOggVorbis.readComments hp count pos with
                | .error e => .error e
                | .ok (comments, _) =>
                  if hp.length = 0 then .error .indexOutOfRange
                  else if hp.getD (hp.length - 1) 0 ≠ 1 then .ok (.error .framingBit)
                  else .ok (.ok { oggv with VendorString := vendor, Comments := comments })

/-- The zero value `OggVorbis{}` that `ReadOggVorbis` starts from. -/
def OggVorbis.zero : OggVorbis :=
  { headerPacket := [[], [], []], postPages := [], VendorString := [], Comments := [] }

/-- The statements of the page loop of `ReadOggVorbis` from the label `redo` on, for the page
`p`: the struct and `packetNum` afterwards. -/
def ReadOggVorbis.redo (oggv : OggVorbis) (packetNum : Nat) (p : Page) :
    Except Panic (OggVorbis × Nat) :=
  if packetNum < 3 then
    match ReadPacket p (some (oggv.headerPacket.getD packetNum [])) with
    | .error e => .error e
    | .ok (fin, _, rem, buf) =>
      if fin then
        ReadOggVorbis.redo { oggv with headerPacket := oggv.headerPacket.set packetNum buf }
          (packetNum + 1) rem
      else .ok ({ oggv with headerPacket := oggv.headerPacket.set packetNum buf }, packetNum)
  else .ok ({ oggv with postPages := oggv.postPages ++ [p] }, packetNum)
termination_by 3 - packetNum

/-- The page loop of `ReadOggVorbis`, reading from the bytes `r`: the struct at the label `ex`,
or the error returned from inside the loop.  Every successful `ReadPage` consumes at least 27
bytes, so `fuel` above the length of `r` is never used up; `none` means it was. -/
def ReadOggVorbis.pageLoop (crcTable : Nat → Nat) :
    Nat → List Nat → OggVorbis → Nat → Option (Except Panic (Except VorbisErr OggVorbis))
  | 0, _, _, _ => none
  | fuel + 1, r, oggv, packetNum =>
    match ReadPage crcTable r with
    | (.error .EOF, _) => some (.ok (.ok oggv))
    | (.error .ErrUnexpectedEOF, _) => some (.ok (.ok oggv))
    | (.error e, _) => some (.ok (.error (.page e)))
    | (.ok p, r1) =>
      match ReadOggVorbis.redo oggv packetNum p with
      | .error e => some (.error e)
      | .ok (oggv1, packetNum1) => ReadOggVorbis.pageLoop crcTable fuel r1 oggv1 packetNum1

/-- The function `ReadOggVorbis` of `comment.go`, reading from the bytes `r`. -/
def ReadOggVorbis (crcTable : Nat → Nat) (r : List Nat) :
    Option (Except Panic (Except VorbisErr OggVorbis)) :=
  match ReadOggVorbis.pageLoop crcTable (r.length + 1) r OggVorbis.zero 0 with
  | none => none
  | some (.error e) => some (.error e)
  | some (.ok (.error e)) => some (.ok (.error e))
  | some (.ok (.ok oggv)) => some (ReadOggVorbis.parseHeader oggv)

/-! ## Packets of a page sequence, and further auxiliary definitions -/

/-- The segments of a page: the data cut according to the segment table, every segment with its
recorded length. -/
def Page.segments : List Int → List Nat → List (Int × List Nat)
  | [], _ => []
  | s :: rest, d => (s, d.take s.toNat) :: Page.segments rest (d.drop s.toNat)

/-- The complete packets that a sequence of segments delimits, in the words of the
specification: a packet is the concatenation of the data of its segments, and "a segment length
below 255 ends a packet".  The list `acc` holds the bytes of the packet under way. -/
def packetsOfSegments (acc : List Nat) : List (Int × List Nat) → List (List Nat)
  | [] => []
  | (s, d) :: rest =>
    if s < 255 then (acc ++ d) :: packetsOfSegments [] rest
    else packetsOfSegments (acc ++ d) rest

/-- The complete packets of a sequence of pages of one logical stream. -/
def packetsOfPages (ps : List Page) : List (List Nat) :=
  packetsOfSegments [] (ps.map (fun p => Page.segments p.SegTable p.Data)).flatten

/-- The effect of a sequence of segments on the three header packet buffers and on
`packetNum`, segment by segment. -/
def runSegments : List (Int × List Nat) → List (List Nat) × Nat → List (List Nat) × Nat
  | [], st => st
  | (s, d) :: rest, (hp, k) =>
    if k < 3 then
      runSegments rest (hp.set k (hp.getD k [] ++ d), if s < 255 then k + 1 else k)
    else (hp, k)

/-- The bytes `updateCommentFieldPacket` appends for one comment. -/
def commentBytes (r : List Nat) : List Nat :=
  littleEndian.PutUint32 (r.length % 4294967296) ++ r

/-- The packet `updateCommentFieldPacket` builds, in closed form. -/
def commentPacket (vendor : List Nat) (comments : List (List Nat)) : List Nat :=
  [0x3] ++ (vorbisMagic ++ (littleEndian.PutUint32 vendor.length ++ (vendor
    ++ (littleEndian.PutUint32 comments.length
      ++ ((comments.map commentBytes).flatten ++ [1])))))

/-- An `OggVorbis` value with vendor string "AB" and three comments, one of them empty. -/
def OggVorbis.sample : OggVorbis :=
  { OggVorbis.zero with VendorString := [65, 66], Comments := [[1, 2, 3], [], [9]] }

/-- A page that holds three packets of one byte each. -/
def Page.threePackets : Page :=
  { Typ := 2, Granule := 0, Serial := 0, Sequence := 0, Crc := 0, SegTable := [1, 1, 1],
    Data := [7, 8, 9] }

theorem extendCrc32_append (tbl : Nat → Nat) (c : Nat) (a b : List Nat) :
    extendCrc32 tbl c (a ++ b) = extendCrc32 tbl (extendCrc32 tbl c a) b := by
  simp [extendCrc32, List.foldl_append]

theorem extendCrc32_lt (tbl : Nat → Nat) (c : Nat) (d : List Nat) (hc : c < 4294967296) :
    extendCrc32 tbl c d < 4294967296 := by
  induction d generalizing c with
  | nil => simpa [extendCrc32] using hc
  | cons n d ih =>
    have step : (tbl (((c >>> 24) % 256) ^^^ n) % 4294967296) ^^^ ((c <<< 8) % 4294967296)
        < 2 ^ 32 :=
      Nat.xor_lt_two_pow (Nat.mod_lt _ (by norm_num)) (Nat.mod_lt _ (by norm_num))
    have := ih _ step
    simpa [extendCrc32] using this

theorem byteOrder.Uint32_PutUint32 (v : Nat) :
    byteOrder.Uint32 (byteOrder.PutUint32 v) = v % 4294967296 := by
  simp only [byteOrder.Uint32, byteOrder.PutUint32, List.getD_cons_zero, List.getD_cons_succ]
  omega

theorem byteOrder.Uint64_PutUint64 (v : Nat) :
    byteOrder.Uint64 (byteOrder.PutUint64 v) = v % 18446744073709551616 := by
  simp only [byteOrder.Uint64, byteOrder.PutUint64, List.getD_cons_zero, List.getD_cons_succ]
  omega

theorem readFull_append (a rest : List Nat) :
    readFull (a ++ rest) a.length = (.ok a, rest) := by
  simp [readFull]

theorem head_eq (p : Page) (crc : Nat) :
    WritePage.head p crc = headerBytes p crc ++ segBytes p := rfl

theorem headerBytes_length (p : Page) (crc : Nat) : (headerBytes p crc).length = 27 := rfl

theorem segBytes_length (p : Page) : (segBytes p).length = p.SegTable.length := by
  simp [segBytes]

theorem segBytes_map (p : Page) (hr : ∀ s ∈ p.SegTable, 0 ≤ s ∧ s ≤ 255) :
    (segBytes p).map Int.ofNat = p.SegTable := by
  unfold segBytes
  rw [List.map_map]
  conv_rhs => rw [← List.map_id p.SegTable]
  apply List.map_congr_left
  intro s hs
  have := hr s hs
  simp only [Function.comp, id, Int.ofNat_eq_coe]
  omega

theorem segBytes_sum (p : Page) (hr : ∀ s ∈ p.SegTable, 0 ≤ s ∧ s ≤ 255) :
    (((segBytes p).sum : Nat) : Int) = p.SegTable.sum := by
  conv_rhs => rw [← segBytes_map p hr]
  generalize segBytes p = l
  induction l with
  | nil => rfl
  | cons a l ih => simp [ih]

theorem WritePage.crc_lt (tbl : Nat → Nat) (p : Page) : WritePage.crc tbl p < 4294967296 := by
  unfold WritePage.crc crc32
  apply extendCrc32_lt
  rw [head_eq, extendCrc32_append]
  apply extendCrc32_lt
  simp only [headerBytes, capturePattern, List.cons_append, List.nil_append, extendCrc32,
    List.foldl_cons]
  have step : ∀ a b : Nat, (a % 4294967296) ^^^ (b % 4294967296) < 2 ^ 32 := fun a b =>
    Nat.xor_lt_two_pow (Nat.mod_lt _ (by norm_num)) (Nat.mod_lt _ (by norm_num))
  exact extendCrc32_lt tbl _ _ (step _ _)

theorem ReadPage_encode_append (tbl : Nat → Nat) (p : Page) (rest : List Nat)
    (hlen : p.SegTable.length ≤ 255) (hr : ∀ s ∈ p.SegTable, 0 ≤ s ∧ s ≤ 255)
    (hsum : (p.Data.length : Int) = p.SegTable.sum) :
    ReadPage tbl (p.encode tbl ++ rest) = (.ok (p.decoded tbl), rest) := by
  have h1 : readFull (p.encode tbl ++ rest) headsz
      = (.ok (headerBytes p (WritePage.crc tbl p)), segBytes p ++ (p.Data ++ rest)) := by
    have := readFull_append (headerBytes p (WritePage.crc tbl p)) (segBytes p ++ (p.Data ++ rest))
    rw [headerBytes_length] at this
    simpa [Page.encode, head_eq, headsz] using this
  have hn : p.SegTable.length % 256 = (segBytes p).length := by
    rw [segBytes_length]; omega
  have h2 : readFull (segBytes p ++ (p.Data ++ rest)) (p.SegTable.length % 256)
      = (.ok (segBytes p), p.Data ++ rest) := by
    rw [hn]; exact readFull_append _ _
  have hs : (segBytes p).sum = p.Data.length := by
    have := segBytes_sum p hr
    omega
  have h3 : readFull (p.Data ++ rest) (segBytes p).sum = (.ok p.Data, rest) := by
    rw [hs]; exact readFull_append _ _
  have hcrc : extendCrc32 tbl (extendCrc32 tbl (extendCrc32 tbl 0 (headerBytes p 0)) (segBytes p))
      p.Data = WritePage.crc tbl p := by
    simp [WritePage.crc, crc32, head_eq, extendCrc32_append]
  have g1 : (headerBytes p (WritePage.crc tbl p)).take 4 = capturePattern := rfl
  have g2 : (headerBytes p (WritePage.crc tbl p)).getD 4 0 = 0 := rfl
  have g3 : (headerBytes p (WritePage.crc tbl p)).getD 5 0 = p.Typ := rfl
  have g4 : ((headerBytes p (WritePage.crc tbl p)).drop 6).take 8
      = byteOrder.PutUint64 p.Granule := rfl
  have g5 : ((headerBytes p (WritePage.crc tbl p)).drop 14).take 4
      = byteOrder.PutUint32 p.Serial := rfl
  have g6 : ((headerBytes p (WritePage.crc tbl p)).drop 18).take 4
      = byteOrder.PutUint32 p.Sequence := rfl
  have g7 : ((headerBytes p (WritePage.crc tbl p)).drop 22).take 4
      = byteOrder.PutUint32 (WritePage.crc tbl p) := rfl
  have g8 : (headerBytes p (WritePage.crc tbl p)).getD 26 0 = p.SegTable.length % 256 := rfl
  have g9 : (headerBytes p (WritePage.crc tbl p)).take 22 ++ [0, 0, 0, 0]
      ++ (headerBytes p (WritePage.crc tbl p)).drop 26 = headerBytes p 0 := rfl
  have hc := WritePage.crc_lt tbl p
  simp only [ReadPage, h1, g1, g2, g3, g4, g5, g6, g7, g8, g9, h2, h3, hcrc, ne_eq,
    not_true_eq_false, if_false, byteOrder.Uint32_PutUint32, byteOrder.Uint64_PutUint64,
    Nat.mod_eq_of_lt hc, segBytes_map p hr, Page.decoded]

theorem WritePage_ok (tbl : Nat → Nat) (w : Writer) (p : Page)
    (hw : w.failAfter = none) (hlen : p.SegTable.length ≤ 255) :
    WritePage tbl w p
      = ({ w with written := w.written ++ [WritePage.head p (WritePage.crc tbl p), p.Data] },
         none) := by
  have hn : ¬ p.SegTable.length > 255 := by omega
  simp [WritePage, Writer.Write, hw, hn]

theorem WritePacket.countSegs_eq (len mstPos c : Nat) (h : c ≤ min 255 (len - mstPos)) :
    WritePacket.countSegs len mstPos c = min 255 (len - mstPos) := by
  induction c using WritePacket.countSegs.induct len mstPos with
  | case1 c hc ih => rw [WritePacket.countSegs, if_pos hc]; exact ih (by omega)
  | case2 c hc => rw [WritePacket.countSegs, if_neg hc]; omega

theorem WritePacket.masterSegTbl_eq (n : Nat) :
    WritePacket.masterSegTbl n = List.replicate (n / 255) (255 : Int) ++ [((n % 255 : Nat) : Int)] := by
  unfold WritePacket.masterSegTbl mss
  rw [List.replicate_succ', List.set_append_right _ _ (by simp)]
  simp

theorem WritePacket.masterSegTbl_length (n : Nat) :
    (WritePacket.masterSegTbl n).length = n / 255 + 1 := by
  simp [WritePacket.masterSegTbl_eq]

theorem WritePacket.segTable_more (n k : Nat) (h : 255 * (k + 1) < n / 255 + 1) :
    ((WritePacket.masterSegTbl n).drop (255 * k)).take 255 = List.replicate 255 (255 : Int) := by
  rw [WritePacket.masterSegTbl_eq, List.drop_append_of_le_length (by simp; omega),
    List.take_append_of_le_length (by simp; omega), List.drop_replicate, List.take_replicate]
  congr 1
  omega

theorem WritePacket.segTable_last (n k : Nat) (h1 : 255 * k < n / 255 + 1)
    (h2 : n / 255 + 1 ≤ 255 * (k + 1)) :
    ((WritePacket.masterSegTbl n).drop (255 * k)).take 255
      = List.replicate (n / 255 - 255 * k) (255 : Int) ++ [((n % 255 : Nat) : Int)] := by
  rw [WritePacket.masterSegTbl_eq, List.drop_append_of_le_length (by simp; omega)]
  rw [List.take_of_length_le (by simp; omega)]
  simp

theorem WritePacket.loop_more (tbl : Nat → Nat) (packet : List Nat)
    (granule serial sequenceStart flags : Nat) (w : Writer) (emitted : List Page) (k : Nat)
    (hw : w.failAfter = none) (h : 255 * (k + 1) < packet.length / 255 + 1) :
    WritePacket.loop tbl packet granule serial sequenceStart flags
        (WritePacket.masterSegTbl packet.length) w emitted (k % 4294967296) (65025 * k) (255 * k)
      = WritePacket.loop tbl packet granule serial sequenceStart flags
          (WritePacket.masterSegTbl packet.length)
          (w.afterPages tbl [WritePacket.pageAt packet granule serial sequenceStart flags k])
          (emitted ++ [WritePacket.pageAt packet granule serial sequenceStart flags k])
          ((k + 1) % 4294967296) (65025 * (k + 1)) (255 * (k + 1)) := by
  have hpos : 255 * k < (WritePacket.masterSegTbl packet.length).length := by
    rw [WritePacket.masterSegTbl_length]; omega
  have hc : WritePacket.countSegs (WritePacket.masterSegTbl packet.length).length (255 * k) 0
      = 255 := by
    rw [WritePacket.countSegs_eq _ _ _ (by omega), WritePacket.masterSegTbl_length]; omega
  have hseg := WritePacket.segTable_more packet.length k h
  rw [WritePacket.loop]
  have hlast : (List.replicate 255 (255 : Int)).getLast? = some 255 := by
    rw [List.getLast?_replicate]; rfl
  have hq : 65025 * (k + 1) ≤ packet.length := by
    have := Nat.div_add_mod packet.length 255
    omega
  have hb : ¬ (((255 : Nat) : Int) * 255 - 255 + 255 < 0 ∨
      ((65025 * k : Nat) : Int) + (((255 : Nat) : Int) * 255 - 255 + 255) > (packet.length : Int)) := by
    omega
  have hn : (((255 : Nat) : Int) * 255 - 255 + 255).toNat = 65025 := by omega
  have e1 : (255 * k ≠ 0) = (k ≠ 0) := by simp
  have e2 : (255 * k + 255 ≥ (WritePacket.masterSegTbl packet.length).length)
      = (packet.length / 255 + 1 ≤ 255 * (k + 1)) := by
    rw [WritePacket.masterSegTbl_length]; apply propext; constructor <;> intro _ <;> omega
  have e3 : (0 : Nat) ||| COP = COP := by simp
  have e4 : (0 : Nat) ||| BOS = BOS := by simp
  have e5 : (sequenceStart + k % 4294967296) % 4294967296 = (sequenceStart + k) % 4294967296 := by
    omega
  have e6 : (k % 4294967296 + 1) % 4294967296 = (k + 1) % 4294967296 := by omega
  simp only [dif_pos hpos, hc, hseg, hlast, List.length_replicate, hb, if_false, hn, e1, e2, e3,
    e4, e5, e6]
  have hpg : WritePacket.pageAt packet granule serial sequenceStart flags k
      = { Typ := if packet.length / 255 + 1 ≤ 255 * (k + 1) ∧ flags &&& EOS ≠ 0 then
                  (if k ≠ 0 then COP else if flags &&& BOS ≠ 0 then BOS else 0) ||| EOS
                else if k ≠ 0 then COP else if flags &&& BOS ≠ 0 then BOS else 0,
          Granule := if packet.length / 255 + 1 ≤ 255 * (k + 1) then granule
                     else 18446744073709551615,
          Serial := serial, Sequence := (sequenceStart + k) % 4294967296, Crc := 0,
          SegTable := List.replicate 255 255,
          Data := List.take 65025 (List.drop (65025 * k) packet) } := by
    simp only [WritePacket.pageAt, hseg]
  rw [← hpg, WritePage_ok tbl w _ hw (by rw [hpg]; exact (List.length_replicate _ _).le)]
  simp only [Writer.afterPages, List.map_cons, List.map_nil, List.flatten_cons, List.flatten_nil,
    List.append_nil]
  rfl

theorem WritePacket.loop_last (tbl : Nat → Nat) (packet : List Nat)
    (granule serial sequenceStart flags : Nat) (w : Writer) (emitted : List Page) (k : Nat)
    (hw : w.failAfter = none) (h1 : 255 * k < packet.length / 255 + 1)
    (h2 : packet.length / 255 + 1 ≤ 255 * (k + 1)) :
    WritePacket.loop tbl packet granule serial sequenceStart flags
        (WritePacket.masterSegTbl packet.length) w emitted (k % 4294967296) (65025 * k) (255 * k)
      = .ok { writer := w.afterPages tbl
                [WritePacket.pageAt packet granule serial sequenceStart flags k],
              pages := emitted ++ [WritePacket.pageAt packet granule serial sequenceStart flags k],
              next := (sequenceStart + (k + 1)) % 4294967296, err := none } := by
  have hpos : 255 * k < (WritePacket.masterSegTbl packet.length).length := by
    rw [WritePacket.masterSegTbl_length]; omega
  have hc : WritePacket.countSegs (WritePacket.masterSegTbl packet.length).length (255 * k) 0
      = packet.length / 255 + 1 - 255 * k := by
    rw [WritePacket.countSegs_eq _ _ _ (by omega), WritePacket.masterSegTbl_length]; omega
  have hseg := WritePacket.segTable_last packet.length k h1 h2
  have hseg2 : List.take (packet.length / 255 + 1 - 255 * k)
      (List.drop (255 * k) (WritePacket.masterSegTbl packet.length))
      = List.replicate (packet.length / 255 - 255 * k) (255 : Int)
          ++ [((packet.length % 255 : Nat) : Int)] := by
    rw [← hseg, List.take_of_length_le, List.take_of_length_le]
    · simp [WritePacket.masterSegTbl_length]; omega
    · simp [WritePacket.masterSegTbl_length]
  have hlast : (List.replicate (packet.length / 255 - 255 * k) (255 : Int)
      ++ [((packet.length % 255 : Nat) : Int)]).getLast? = some ((packet.length % 255 : Nat) : Int) := by
    simp
  have hlen : (List.replicate (packet.length / 255 - 255 * k) (255 : Int)
      ++ [((packet.length % 255 : Nat) : Int)]).length = packet.length / 255 - 255 * k + 1 := by
    simp
  have hb : ¬ (((packet.length / 255 - 255 * k + 1 : Nat) : Int) * 255 - 255
        + ((packet.length % 255 : Nat) : Int) < 0 ∨
      ((65025 * k : Nat) : Int) + (((packet.length / 255 - 255 * k + 1 : Nat) : Int) * 255 - 255
        + ((packet.length % 255 : Nat) : Int)) > (packet.length : Int)) := by
    omega
  have hn : (((packet.length / 255 - 255 * k + 1 : Nat) : Int) * 255 - 255
        + ((packet.length % 255 : Nat) : Int)).toNat = packet.length - 65025 * k := by omega
  have hdata : List.take (packet.length - 65025 * k) (List.drop (65025 * k) packet)
      = List.take 65025 (List.drop (65025 * k) packet) := by
    rw [List.take_of_length_le, List.take_of_length_le]
    · simp; omega
    · simp
  have e1 : (255 * k ≠ 0) = (k ≠ 0) := by simp
  have e2 : (255 * k + (packet.length / 255 + 1 - 255 * k)
        ≥ (WritePacket.masterSegTbl packet.length).length)
      = (packet.length / 255 + 1 ≤ 255 * (k + 1)) := by
    rw [WritePacket.masterSegTbl_length]; apply propext; constructor <;> intro _ <;> omega
  have e3 : (0 : Nat) ||| COP = COP := by simp
  have e4 : (0 : Nat) ||| BOS = BOS := by simp
  have e5 : (sequenceStart + k % 4294967296) % 4294967296 = (sequenceStart + k) % 4294967296 := by
    omega
  have e6 : (sequenceStart + (k % 4294967296 + 1) % 4294967296) % 4294967296
      = (sequenceStart + (k + 1)) % 4294967296 := by omega
  rw [WritePacket.loop]
  simp only [dif_pos hpos, hc, hseg2, hlast, hlen, hb, if_false, hn, hdata, e1, e2, e3, e4, e5]
  have hpg : WritePacket.pageAt packet granule serial sequenceStart flags k
      = { Typ := if packet.length / 255 + 1 ≤ 255 * (k + 1) ∧ flags &&& EOS ≠ 0 then
                  (if k ≠ 0 then COP else if flags &&& BOS ≠ 0 then BOS else 0) ||| EOS
                else if k ≠ 0 then COP else if flags &&& BOS ≠ 0 then BOS else 0,
          Granule := if packet.length / 255 + 1 ≤ 255 * (k + 1) then granule
                     else 18446744073709551615,
          Serial := serial, Sequence := (sequenceStart + k) % 4294967296, Crc := 0,
          SegTable := List.replicate (packet.length / 255 - 255 * k) (255 : Int)
            ++ [((packet.length % 255 : Nat) : Int)],
          Data := List.take 65025 (List.drop (65025 * k) packet) } := by
    simp only [WritePacket.pageAt, hseg]
  have hend : ¬ (255 * k + (packet.length / 255 + 1 - 255 * k)
      < (WritePacket.masterSegTbl packet.length).length) := by
    rw [WritePacket.masterSegTbl_length]; omega
  rw [← hpg, WritePage_ok tbl w _ hw (by rw [hpg, hlen]; omega)]
  simp only []
  rw [WritePacket.loop, dif_neg hend, e6]
  simp only [Writer.afterPages, List.map_cons, List.map_nil, List.flatten_cons, List.flatten_nil,
    List.append_nil]

theorem Writer.afterPages_failAfter (tbl : Nat → Nat) (w : Writer) (ps : List Page) :
    (w.afterPages tbl ps).failAfter = w.failAfter := rfl

theorem Writer.afterPages_cons (tbl : Nat → Nat) (w : Writer) (p : Page) (ps : List Page) :
    (w.afterPages tbl [p]).afterPages tbl ps = w.afterPages tbl (p :: ps) := by
  simp [Writer.afterPages]

theorem WritePacket.loop_from (tbl : Nat → Nat) (packet : List Nat)
    (granule serial sequenceStart flags : Nat) (j : Nat) :
    ∀ (w : Writer) (emitted : List Page) (k : Nat), w.failAfter = none →
      k + j + 1 = WritePacket.numPages packet.length →
      WritePacket.loop tbl packet granule serial sequenceStart flags
          (WritePacket.masterSegTbl packet.length) w emitted (k % 4294967296) (65025 * k)
          (255 * k)
        = .ok { writer := w.afterPages tbl ((List.range' k (j + 1)).map
                  (WritePacket.pageAt packet granule serial sequenceStart flags)),
                pages := emitted ++ (List.range' k (j + 1)).map
                  (WritePacket.pageAt packet granule serial sequenceStart flags),
                next := (sequenceStart + WritePacket.numPages packet.length) % 4294967296,
                err := none } := by
  induction j with
  | zero =>
    intro w emitted k hw hk
    unfold WritePacket.numPages at hk
    rw [WritePacket.loop_last tbl packet granule serial sequenceStart flags w emitted k hw
      (by omega) (by omega)]
    have : WritePacket.numPages packet.length = k + 1 := by unfold WritePacket.numPages; omega
    rw [this]
    rfl
  | succ j ih =>
    intro w emitted k hw hk
    have hk2 := hk
    unfold WritePacket.numPages at hk2
    rw [WritePacket.loop_more tbl packet granule serial sequenceStart flags w emitted k hw
      (by omega)]
    rw [ih _ _ (k + 1) (by rw [Writer.afterPages_failAfter]; exact hw) (by omega)]
    rw [Writer.afterPages_cons, List.append_assoc]
    rfl

theorem WritePacket_eq (tbl : Nat → Nat) (w : Writer) (packet : List Nat)
    (granule serial sequenceStart flags : Nat) (hw : w.failAfter = none) :
    WritePacket tbl w packet granule serial sequenceStart flags
      = .ok { writer := w.afterPages tbl ((List.range (WritePacket.numPages packet.length)).map
                (WritePacket.pageAt packet granule serial sequenceStart flags)),
              pages := (List.range (WritePacket.numPages packet.length)).map
                (WritePacket.pageAt packet granule serial sequenceStart flags),
              next := (sequenceStart + WritePacket.numPages packet.length) % 4294967296,
              err := none } := by
  have hn : 0 + (WritePacket.numPages packet.length - 1) + 1
      = WritePacket.numPages packet.length := by
    unfold WritePacket.numPages; omega
  have := WritePacket.loop_from tbl packet granule serial sequenceStart flags
    (WritePacket.numPages packet.length - 1) w [] 0 hw hn
  have h1 : WritePacket.numPages packet.length - 1 + 1 = WritePacket.numPages packet.length := by
    omega
  rw [h1, ← List.range_eq_range'] at this
  simpa [WritePacket] using this

theorem and_two_pow_ne_zero (f n : Nat) : f &&& 2 ^ n ≠ 0 ↔ f.testBit n = true := by
  constructor
  · intro h
    by_contra hb
    apply h
    apply Nat.eq_of_testBit_eq
    intro i
    rw [Nat.testBit_and, Nat.testBit_two_pow, Nat.zero_testBit]
    by_cases hi : n = i
    · subst hi; simp [hb]
    · simp [hi]
  · intro h h0
    have := congrArg (fun x => Nat.testBit x n) h0
    simp [Nat.testBit_two_pow, h] at this

theorem chunks_flatten {α : Type} (l : List α) (c n : Nat) :
    ((List.range n).map (fun k => (l.drop (c * k)).take c)).flatten = l.take (c * n) := by
  induction n with
  | zero => simp
  | succ n ih =>
    rw [List.range_succ, List.map_append, List.flatten_append, ih, Nat.mul_succ, List.take_add]
    simp

theorem WritePacket.numPages_pos (n : Nat) : 0 < WritePacket.numPages n := by
  unfold WritePacket.numPages; omega

theorem WritePacket.pages_segTables (packet : List Nat) (granule serial sequenceStart flags : Nat) :
    (((List.range (WritePacket.numPages packet.length)).map
        (WritePacket.pageAt packet granule serial sequenceStart flags)).map
          (fun p => p.SegTable)).flatten
      = List.replicate (packet.length / 255) (255 : Int) ++ [((packet.length % 255 : Nat) : Int)] := by
  rw [List.map_map]
  have : ((fun p : Page => p.SegTable) ∘ WritePacket.pageAt packet granule serial sequenceStart flags)
      = fun k => ((WritePacket.masterSegTbl packet.length).drop (255 * k)).take 255 := rfl
  rw [this, chunks_flatten, List.take_of_length_le, WritePacket.masterSegTbl_eq]
  rw [WritePacket.masterSegTbl_length]
  unfold WritePacket.numPages
  omega

theorem WritePacket.pages_data (packet : List Nat) (granule serial sequenceStart flags : Nat) :
    (((List.range (WritePacket.numPages packet.length)).map
        (WritePacket.pageAt packet granule serial sequenceStart flags)).map
          (fun p => p.Data)).flatten = packet := by
  rw [List.map_map]
  have : ((fun p : Page => p.Data) ∘ WritePacket.pageAt packet granule serial sequenceStart flags)
      = fun k => (packet.drop (65025 * k)).take 65025 := rfl
  rw [this, chunks_flatten, List.take_of_length_le]
  unfold WritePacket.numPages
  omega

theorem replicate_sum (m : Nat) (a : Int) : (List.replicate m a).sum = (m : Int) * a := by
  induction m with
  | zero => simp
  | succ m ih => rw [List.replicate_succ, List.sum_cons, ih]; push_cast; ring

/-- Every page `WritePacket` emits is well formed. -/
theorem WritePacket.pageAt_wf (packet : List Nat) (granule serial sequenceStart flags k : Nat)
    (hk : k < WritePacket.numPages packet.length) :
    1 ≤ (WritePacket.pageAt packet granule serial sequenceStart flags k).SegTable.length ∧
    (WritePacket.pageAt packet granule serial sequenceStart flags k).SegTable.length ≤ 255 ∧
    (∀ s ∈ (WritePacket.pageAt packet granule serial sequenceStart flags k).SegTable,
      0 ≤ s ∧ s ≤ 255) ∧
    (((WritePacket.pageAt packet granule serial sequenceStart flags k).Data.length : Nat) : Int)
      = (WritePacket.pageAt packet granule serial sequenceStart flags k).SegTable.sum ∧
    (WritePacket.pageAt packet granule serial sequenceStart flags k).Data.length ≤ 65025 := by
  unfold WritePacket.numPages at hk
  have hdata : (WritePacket.pageAt packet granule serial sequenceStart flags k).Data
      = (packet.drop (65025 * k)).take 65025 := rfl
  have hst : (WritePacket.pageAt packet granule serial sequenceStart flags k).SegTable
      = ((WritePacket.masterSegTbl packet.length).drop (255 * k)).take 255 := rfl
  rw [hdata, hst]
  by_cases h : 255 * (k + 1) < packet.length / 255 + 1
  · rw [WritePacket.segTable_more _ _ h, replicate_sum]
    simp only [List.length_replicate, List.length_take, List.length_drop, List.mem_replicate]
    refine ⟨by omega, by omega, ?_, by omega, by omega⟩
    rintro s ⟨-, rfl⟩
    omega
  · rw [WritePacket.segTable_last _ _ (by omega) (by omega), List.sum_append, replicate_sum]
    simp only [List.length_replicate, List.length_take, List.length_drop, List.length_append,
      List.length_singleton, List.mem_append, List.mem_replicate, List.mem_singleton,
      List.sum_singleton]
    refine ⟨by omega, by omega, ?_, by omega, by omega⟩
    rintro s (⟨-, rfl⟩ | rfl) <;> omega

theorem WritePacket.pageAt_bits (packet : List Nat) (granule serial sequenceStart flags k : Nat) :
    ((WritePacket.pageAt packet granule serial sequenceStart flags k).Typ.testBit 0 = true
      ↔ 0 < k) ∧
    ((WritePacket.pageAt packet granule serial sequenceStart flags k).Typ.testBit 1 = true
      ↔ k = 0 ∧ flags.testBit 1 = true) ∧
    ((WritePacket.pageAt packet granule serial sequenceStart flags k).Typ.testBit 2 = true
      ↔ packet.length / 255 + 1 ≤ 255 * (k + 1) ∧ flags.testBit 2 = true) ∧
    (∀ i, 3 ≤ i →
      (WritePacket.pageAt packet granule serial sequenceStart flags k).Typ.testBit i = false) := by
  have hT : (WritePacket.pageAt packet granule serial sequenceStart flags k).Typ
      = if packet.length / 255 + 1 ≤ 255 * (k + 1) ∧ flags &&& EOS ≠ 0 then
          (if k ≠ 0 then COP else if flags &&& BOS ≠ 0 then BOS else 0) ||| EOS
        else if k ≠ 0 then COP else if flags &&& BOS ≠ 0 then BOS else 0 := rfl
  rw [hT]
  have hB : (flags &&& 2 = 0) = (flags.testBit 1 = false) := by
    have := and_two_pow_ne_zero flags 1
    apply propext
    constructor
    · intro h; by_contra hc; exact (this.2 (by simpa using hc)) h
    · intro h; by_contra hc; have := this.1 hc; simp [h] at this
  have hE : (flags &&& 4 = 0) = (flags.testBit 2 = false) := by
    have := and_two_pow_ne_zero flags 2
    apply propext
    constructor
    · intro h; by_contra hc; exact (this.2 (by simpa using hc)) h
    · intro h; by_contra hc; have := this.1 hc; simp [h] at this
  simp only [COP, BOS, EOS, ne_eq, hB, hE]
  have hhigh : ∀ t : Nat, t < 8 → ∀ i, 3 ≤ i → t.testBit i = false := by
    intro t ht i hi
    apply Nat.testBit_lt_two_pow
    calc t < 2 ^ 3 := ht
      _ ≤ 2 ^ i := Nat.pow_le_pow_right (by norm_num) hi
  have b00 : Nat.testBit 0 0 = false := by decide
  have b01 : Nat.testBit 0 1 = false := by decide
  have b02 : Nat.testBit 0 2 = false := by decide
  have b10 : Nat.testBit 1 0 = true := by decide
  have b11 : Nat.testBit 1 1 = false := by decide
  have b12 : Nat.testBit 1 2 = false := by decide
  have b20 : Nat.testBit 2 0 = false := by decide
  have b21 : Nat.testBit 2 1 = true := by decide
  have b22 : Nat.testBit 2 2 = false := by decide
  have b40 : Nat.testBit 4 0 = false := by decide
  have b41 : Nat.testBit 4 1 = false := by decide
  have b42 : Nat.testBit 4 2 = true := by decide
  have o1 : (1 ||| 4 : Nat) < 8 := by decide
  have o2 : (2 ||| 4 : Nat) < 8 := by decide
  have o0 : (0 ||| 4 : Nat) < 8 := by decide
  split_ifs with h1 h2 h3 h4 h5 <;>
    refine ⟨?_, ?_, ?_, ?_⟩ <;>
    first
      | exact hhigh _ (by first | exact o1 | exact o2 | exact o0 | norm_num)
      | (simp only [Nat.testBit_or, b00, b01, b02, b10, b11, b12, b20, b21, b22, b40, b41, b42]
         simp_all
         try omega)

theorem SplitPage.sumLoop_eq (segmentIndex : Int) (l : List Int) (i : Nat) (ds : Int) :
    SplitPage.sumLoop segmentIndex l i ds = ds + (l.take (segmentIndex - i).toNat).sum := by
  induction l generalizing i ds with
  | nil => simp [SplitPage.sumLoop]
  | cons s rest ih =>
    unfold SplitPage.sumLoop
    by_cases h : (i : Int) < segmentIndex
    · rw [if_pos h, ih]
      have : (segmentIndex - (i : Int)).toNat = (segmentIndex - ((i + 1 : Nat) : Int)).toNat + 1 := by
        omega
      rw [this, List.take_succ_cons, List.sum_cons]
      ring
    · rw [if_neg h]
      have : (segmentIndex - (i : Int)).toNat = 0 := by omega
      rw [this]
      simp

theorem sum_take_nonneg (l : List Int) (h : ∀ s ∈ l, 0 ≤ s) (k : Nat) :
    0 ≤ (l.take k).sum ∧ (l.take k).sum ≤ l.sum := by
  induction l generalizing k with
  | nil => simp
  | cons s rest ih =>
    cases k with
    | zero =>
      simp only [List.take_zero, List.sum_nil, List.sum_cons, le_refl, true_and]
      have h1 := h s (List.mem_cons_self _ _)
      have h2 := (ih (fun t ht => h t (List.mem_cons_of_mem _ ht)) rest.length)
      rw [List.take_length] at h2
      omega
    | succ k =>
      have h1 := h s (List.mem_cons_self _ _)
      have h2 := ih (fun t ht => h t (List.mem_cons_of_mem _ ht)) k
      simp only [List.take_succ_cons, List.sum_cons]
      omega

/-- What `SplitPage` returns for a page with non-negative segment lengths whose data is as long
as their sum. -/
theorem SplitPage_eq (p : Page) (segmentIndex : Int) (hnn : ∀ s ∈ p.SegTable, 0 ≤ s)
    (hsum : (p.Data.length : Int) = p.SegTable.sum) :
    SplitPage p segmentIndex
      = .ok ({ p with
                SegTable := p.SegTable.take (min (max segmentIndex 0) p.SegTable.length).toNat,
                Data := p.Data.take (p.SegTable.take
                  (min (max segmentIndex 0) p.SegTable.length).toNat).sum.toNat },
             { p with
                SegTable := p.SegTable.drop (min (max segmentIndex 0) p.SegTable.length).toNat,
                Data := p.Data.drop (p.SegTable.take
                  (min (max segmentIndex 0) p.SegTable.length).toNat).sum.toNat }) := by
  have hclamp : (if segmentIndex < 0 then (0 : Int)
      else if segmentIndex > (p.SegTable.length : Int) then (p.SegTable.length : Int)
      else segmentIndex) = min (max segmentIndex 0) p.SegTable.length := by
    split_ifs <;> omega
  unfold SplitPage
  simp only [hclamp, SplitPage.sumLoop_eq, Nat.cast_zero, sub_zero, zero_add]
  have hb := sum_take_nonneg p.SegTable hnn (min (max segmentIndex 0) p.SegTable.length).toNat
  rw [if_neg (by omega)]

theorem ReadPacket.scan_eq_some (l : List Int) (c i : Nat) (s : Int) (hi : l[i]? = some s)
    (hs : s < 255) (hbefore : ∀ t ∈ l.take i, 255 ≤ t) :
    ReadPacket.scan l c = some (c + i) := by
  induction l generalizing c i with
  | nil => simp at hi
  | cons a rest ih =>
    unfold ReadPacket.scan
    cases i with
    | zero =>
      simp only [List.getElem?_cons_zero, Option.some.injEq] at hi
      subst hi
      simp [hs]
    | succ i =>
      have ha : ¬ a < 255 := by
        have := hbefore a (by simp)
        omega
      rw [if_neg ha, ih (c + 1) i (by simpa using hi)
        (fun t ht => hbefore t (by simp [List.take_succ_cons, ht]))]
      congr 1
      omega

theorem ReadPacket.scan_eq_none (l : List Int) (c : Nat) (h : ∀ t ∈ l, 255 ≤ t) :
    ReadPacket.scan l c = none := by
  induction l generalizing c with
  | nil => rfl
  | cons a rest ih =>
    unfold ReadPacket.scan
    have ha : ¬ a < 255 := by
      have := h a (by simp)
      omega
    rw [if_neg ha]
    exact ih (c + 1) (fun t ht => h t (List.mem_cons_of_mem _ ht))

theorem ReadPacket_finished (p : Page) (b : List Nat) (i : Nat) (s : Int)
    (hnn : ∀ t ∈ p.SegTable, 0 ≤ t) (hsum : (p.Data.length : Int) = p.SegTable.sum)
    (hi : p.SegTable[i]? = some s) (hs : s < 255)
    (hbefore : ∀ t ∈ p.SegTable.take i, 255 ≤ t) :
    ∃ fragment remainder : Page,
      SplitPage p ((i : Int) + 1) = .ok (fragment, remainder) ∧
      ReadPacket p (some b) = .ok (true, fragment, remainder, b ++ fragment.Data) := by
  refine ⟨_, _, SplitPage_eq p ((i : Int) + 1) hnn hsum, ?_⟩
  unfold ReadPacket
  have hscan := ReadPacket.scan_eq_some p.SegTable 0 i s hi hs hbefore
  rw [Nat.zero_add] at hscan
  have hpb : (if (i : Int) < 0 then (2147483647 : Int) else (i : Int)) = (i : Int) := by
    rw [if_neg (by omega)]
  simp only [hscan, Option.isSome_some, hpb, SplitPage_eq p ((i : Int) + 1) hnn hsum]

theorem ReadPacket_unfinished (p : Page) (b : List Nat)
    (hlen : p.SegTable.length ≤ 2147483648)
    (hsum : (p.Data.length : Int) = p.SegTable.sum)
    (hall : ∀ t ∈ p.SegTable, 255 ≤ t) :
    ReadPacket p (some b)
      = .ok (false, p, { p with SegTable := [], Data := [] }, b ++ p.Data) := by
  have hnn : ∀ t ∈ p.SegTable, 0 ≤ t := fun t ht => by
    have := hall t ht
    omega
  unfold ReadPacket
  have hscan := ReadPacket.scan_eq_none p.SegTable 0 hall
  have hpb : (if (-1 : Int) < 0 then (2147483647 : Int) else (-1 : Int)) = 2147483647 := by
    decide
  have hk : (min (max ((2147483647 : Int) + 1) 0) (p.SegTable.length : Int)).toNat
      = p.SegTable.length := by omega
  have hd : (p.SegTable.sum).toNat = p.Data.length := by omega
  simp only [hscan, Option.isSome_none, hpb, SplitPage_eq p _ hnn hsum, hk, List.take_length,
    List.drop_length, hd]

theorem ReadPacket_nil (p : Page) (r : Bool × Page × Page × List Nat) :
    ReadPacket p none ≠ .ok r := by
  unfold ReadPacket
  simp only []
  split <;> simp

theorem Page.encode_length_pos (tbl : Nat → Nat) (p : Page) : 27 ≤ (p.encode tbl).length := by
  simp [Page.encode, head_eq, headerBytes_length]

theorem readPages_encode (tbl : Nat → Nat) (ps : List Page)
    (hwf : ∀ p ∈ ps, p.SegTable.length ≤ 255 ∧ (∀ s ∈ p.SegTable, 0 ≤ s ∧ s ≤ 255) ∧
      (p.Data.length : Int) = p.SegTable.sum) :
    ∀ fuel, ps.length ≤ fuel →
      readPages tbl fuel (ps.map (fun p => p.encode tbl)).flatten
        = some (ps.map (fun p => p.decoded tbl)) := by
  induction ps with
  | nil => intro fuel _; cases fuel <;> rfl
  | cons p ps ih =>
    intro fuel hfuel
    obtain ⟨f, rfl⟩ : ∃ f, fuel = f + 1 := ⟨fuel - 1, by simp at hfuel; omega⟩
    have hp := hwf p (List.mem_cons_self _ _)
    have hrt := ReadPage_encode_append tbl p (ps.map (fun p => p.encode tbl)).flatten
      hp.1 hp.2.1 hp.2.2
    have hne : ∃ b r, p.encode tbl ++ (ps.map (fun p => p.encode tbl)).flatten = b :: r := by
      have := Page.encode_length_pos tbl p
      cases h : p.encode tbl ++ (ps.map (fun p => p.encode tbl)).flatten with
      | nil =>
        have h2 := congrArg List.length h
        simp only [List.length_append, List.length_nil] at h2
        omega
      | cons b r => exact ⟨b, r, rfl⟩
    obtain ⟨b, r, hbr⟩ := hne
    simp only [List.map_cons, List.flatten_cons]
    rw [hbr] at hrt ⊢
    unfold readPages
    rw [hrt]
    simp only []
    rw [ih (fun q hq => hwf q (List.mem_cons_of_mem _ hq)) f (by simp at hfuel; omega)]
    rfl

theorem Writer.afterPages_written (tbl : Nat → Nat) (w : Writer) (ps : List Page) :
    (w.afterPages tbl ps).written
      = w.written ++ (ps.map (fun p => [WritePage.head p (WritePage.crc tbl p), p.Data])).flatten :=
  rfl

theorem flatten_page_writes (tbl : Nat → Nat) (ps : List Page) :
    ((ps.map (fun p => [WritePage.head p (WritePage.crc tbl p), p.Data])).flatten).flatten
      = (ps.map (fun p => p.encode tbl)).flatten := by
  induction ps with
  | nil => rfl
  | cons p ps ih =>
    simp only [List.map_cons, List.flatten_cons, List.flatten_append, ih, Page.encode]
    simp

theorem readPackets_packet (front : List Page) (last : Page) (b : List Nat)
    (hfront : ∀ p ∈ front, p.SegTable.length ≤ 2147483648 ∧
      (p.Data.length : Int) = p.SegTable.sum ∧ ∀ t ∈ p.SegTable, 255 ≤ t)
    (hsum : (last.Data.length : Int) = last.SegTable.sum)
    (hnn : ∀ t ∈ last.SegTable, 0 ≤ t)
    (m : Nat) (s : Int) (hm : last.SegTable.length = m + 1) (hs : last.SegTable[m]? = some s)
    (hlt : s < 255) (hbefore : ∀ t ∈ last.SegTable.take m, 255 ≤ t) :
    readPackets (front ++ [last]) b
      = .ok (front.map (fun p => (false, p, { p with SegTable := [], Data := [] }))
              ++ [(true, last, { last with SegTable := [], Data := [] })],
             b ++ ((front ++ [last]).map (fun p => p.Data)).flatten) := by
  induction front generalizing b with
  | nil =>
    obtain ⟨fragment, remainder, hsplit, hread⟩ :=
      ReadPacket_finished last b m s hnn hsum hs hlt hbefore
    rw [SplitPage_eq last _ hnn hsum] at hsplit
    have hk : (min (max ((m : Int) + 1) 0) (last.SegTable.length : Int)).toNat
        = last.SegTable.length := by omega
    have hd : (last.SegTable.sum).toNat = last.Data.length := by omega
    simp only [hk, List.take_length, List.drop_length, hd, Except.ok.injEq, Prod.mk.injEq]
      at hsplit
    obtain ⟨hf, hr⟩ := hsplit
    subst hf hr
    simp [readPackets, hread]
  | cons p front ih =>
    have hp := hfront p (List.mem_cons_self _ _)
    have hread := ReadPacket_unfinished p b hp.1 hp.2.1 hp.2.2
    have hrest := ih (b ++ p.Data) (fun q hq => hfront q (List.mem_cons_of_mem _ hq))
    rw [List.cons_append, readPackets, hread]
    simp only []
    rw [hrest]
    simp

theorem Page.decoded_SegTable (tbl : Nat → Nat) (p : Page) :
    (p.decoded tbl).SegTable = p.SegTable := rfl

theorem Page.decoded_Data (tbl : Nat → Nat) (p : Page) : (p.decoded tbl).Data = p.Data := rfl

theorem readFull_short (r : List Nat) (n : Nat) (h : r.length < n) :
    readFull r n = (.error (if r.length = 0 then .EOF else .ErrUnexpectedEOF), []) := by
  unfold readFull
  rw [if_neg (by omega)]
  split_ifs <;> rfl

/-- What `ReadPage` returns on the first `n` bytes of the encoding of a well-formed page, for
`n` below the length of the encoding: `io.EOF` when the cut is at 0, right after the 27 header
bytes or right after the segment table, and `io.ErrUnexpectedEOF` at every other cut. -/
theorem ReadPage_truncated (tbl : Nat → Nat) (p : Page) (n : Nat)
    (hlen : p.SegTable.length ≤ 255) (hr : ∀ s ∈ p.SegTable, 0 ≤ s ∧ s ≤ 255)
    (hsum : (p.Data.length : Int) = p.SegTable.sum)
    (hn : n < (p.encode tbl).length) :
    ReadPage tbl ((p.encode tbl).take n)
      = (.error (if n = 0 ∨ n = 27 ∨ n = 27 + p.SegTable.length then .EOF
                 else .ErrUnexpectedEOF), []) := by
  have henc : p.encode tbl
      = headerBytes p (WritePage.crc tbl p) ++ (segBytes p ++ p.Data) := by
    simp [Page.encode, head_eq]
  have hH := headerBytes_length p (WritePage.crc tbl p)
  have hS := segBytes_length p
  have htot : (p.encode tbl).length = 27 + p.SegTable.length + p.Data.length := by
    rw [henc]; simp only [List.length_append, hH, hS]; omega
  by_cases h27 : n < 27
  · have hl : ((p.encode tbl).take n).length = n := by
      rw [List.length_take]; omega
    have hrf := readFull_short ((p.encode tbl).take n) headsz (by rw [hl]; exact h27)
    rw [hl] at hrf
    unfold ReadPage
    rw [hrf]
    simp only []
    have : (n = 0 ∨ n = 27 ∨ n = 27 + p.SegTable.length) ↔ n = 0 := by omega
    simp only [this]
  · have htake : (p.encode tbl).take n
        = headerBytes p (WritePage.crc tbl p) ++ (segBytes p ++ p.Data).take (n - 27) := by
      rw [henc, List.take_append_eq_append_take, List.take_of_length_le (by omega), hH]
    have h1 : readFull ((p.encode tbl).take n) headsz
        = (.ok (headerBytes p (WritePage.crc tbl p)), (segBytes p ++ p.Data).take (n - 27)) := by
      have := readFull_append (headerBytes p (WritePage.crc tbl p))
        ((segBytes p ++ p.Data).take (n - 27))
      rw [hH] at this
      rw [htake]
      exact this
    have hN : p.SegTable.length % 256 = p.SegTable.length := by omega
    have g1 : (headerBytes p (WritePage.crc tbl p)).take 4 = capturePattern := rfl
    have g2 : (headerBytes p (WritePage.crc tbl p)).getD 4 0 = 0 := rfl
    have g8 : (headerBytes p (WritePage.crc tbl p)).getD 26 0 = p.SegTable.length % 256 := rfl
    by_cases hseg : n - 27 < p.SegTable.length
    · have hl : ((segBytes p ++ p.Data).take (n - 27)).length = n - 27 := by
        rw [List.length_take, List.length_append, hS]; omega
      have h2 := readFull_short ((segBytes p ++ p.Data).take (n - 27)) p.SegTable.length
        (by rw [hl]; exact hseg)
      rw [hl] at h2
      have hc : (n = 0 ∨ n = 27 ∨ n = 27 + p.SegTable.length) ↔ n - 27 = 0 := by omega
      simp only [ReadPage, h1, g1, g2, g8, hN, h2, ne_eq, not_true_eq_false, if_false, hc]
    · have htake2 : (segBytes p ++ p.Data).take (n - 27)
          = segBytes p ++ p.Data.take (n - 27 - p.SegTable.length) := by
        rw [List.take_append_eq_append_take, List.take_of_length_le (by omega), hS]
      have h2 : readFull ((segBytes p ++ p.Data).take (n - 27)) p.SegTable.length
          = (.ok (segBytes p), p.Data.take (n - 27 - p.SegTable.length)) := by
        rw [htake2, ← hS]
        exact readFull_append _ _
      have hs : (segBytes p).sum = p.Data.length := by
        have := segBytes_sum p (fun s hs => hr s hs)
        omega
      have hl : (p.Data.take (n - 27 - p.SegTable.length)).length
          = n - 27 - p.SegTable.length := by
        rw [List.length_take]; omega
      have h3 := readFull_short (p.Data.take (n - 27 - p.SegTable.length)) p.Data.length
        (by rw [hl]; omega)
      rw [hl] at h3
      have hc : (n = 0 ∨ n = 27 ∨ n = 27 + p.SegTable.length)
          ↔ n - 27 - p.SegTable.length = 0 := by omega
      simp only [ReadPage, h1, g1, g2, g8, hN, h2, hs, h3, ne_eq, not_true_eq_false, if_false,
        hc]

theorem WritePage_bytes (tbl : Nat → Nat) (p : Page) (hlen : p.SegTable.length ≤ 255) :
    (WritePage tbl Writer.fresh p).1.bytes = p.encode tbl := by
  rw [WritePage_ok tbl Writer.fresh p rfl hlen]
  simp [Writer.bytes, Writer.fresh, Page.encode]

theorem WritePage.crc_eq (tbl : Nat → Nat) (p : Page) :
    WritePage.crc tbl p = extendCrc32 tbl 0 (WritePage.head p 0 ++ p.Data) := by
  simp [WritePage.crc, crc32, extendCrc32_append]

theorem Page.encode_zeroed (tbl : Nat → Nat) (p : Page) :
    (p.encode tbl).take 22 ++ [0, 0, 0, 0] ++ (p.encode tbl).drop 26
      = WritePage.head p 0 ++ p.Data := rfl

theorem Page.encode_crc_bytes (tbl : Nat → Nat) (p : Page) :
    ((p.encode tbl).drop 22).take 4 = byteOrder.PutUint32 (WritePage.crc tbl p) := rfl

theorem readFull_ok (r : List Nat) (n : Nat) (a rest : List Nat)
    (h : readFull r n = (.ok a, rest)) : r = a ++ rest ∧ a.length = n := by
  unfold readFull at h
  split_ifs at h with h1 h2
  · simp only [Prod.mk.injEq, Except.ok.injEq] at h
    obtain ⟨rfl, rfl⟩ := h
    exact ⟨(List.take_append_drop n r).symm, by rw [List.length_take]; omega⟩
  · simp at h
  · simp at h

/-- What a successful `ReadPage` has read: 27 header bytes with the capture pattern and
version 0, as many segment table bytes as the header announces, and as many data bytes as the
segment table sums to; the page holds the header fields, and its `Crc` is the checksum of
header (checksum field zeroed), segment table and data. -/
theorem ReadPage_ok_inv (tbl : Nat → Nat) (r rest : List Nat) (p : Page)
    (h : ReadPage tbl r = (.ok p, rest)) :
    ∃ header segtbl : List Nat,
      r = header ++ (segtbl ++ (p.Data ++ rest)) ∧ header.length = 27 ∧
      header.take 4 = capturePattern ∧ header.getD 4 0 = 0 ∧
      p.Typ = header.getD 5 0 ∧
      p.Granule = byteOrder.Uint64 ((header.drop 6).take 8) ∧
      p.Serial = byteOrder.Uint32 ((header.drop 14).take 4) ∧
      p.Sequence = byteOrder.Uint32 ((header.drop 18).take 4) ∧
      p.Crc = byteOrder.Uint32 ((header.drop 22).take 4) ∧
      segtbl.length = header.getD 26 0 ∧
      p.SegTable = segtbl.map Int.ofNat ∧
      p.Data.length = segtbl.sum ∧
      extendCrc32 tbl 0 (header.take 22 ++ [0, 0, 0, 0] ++ header.drop 26 ++ segtbl ++ p.Data)
        = p.Crc := by
  unfold ReadPage at h
  cases h1 : readFull r headsz with
  | mk res1 r1 =>
    rw [h1] at h
    cases res1 with
    | error e => simp at h
    | ok header =>
      obtain ⟨hr1, hl1⟩ := readFull_ok _ _ _ _ h1
      simp only [] at h
      split_ifs at h with hcap hver
      · simp at h
      · simp at h
      · cases h2 : readFull r1 (header.getD 26 0) with
        | mk res2 r2 =>
          rw [h2] at h
          cases res2 with
          | error e => simp at h
          | ok segtbl =>
            obtain ⟨hr2, hl2⟩ := readFull_ok _ _ _ _ h2
            simp only [] at h
            cases h3 : readFull r2 segtbl.sum with
            | mk res3 r3 =>
              rw [h3] at h
              cases res3 with
              | error e => simp at h
              | ok data =>
                obtain ⟨hr3, hl3⟩ := readFull_ok _ _ _ _ h3
                simp only [] at h
                split_ifs at h with hcrc
                · simp at h
                · simp only [Prod.mk.injEq, Except.ok.injEq] at h
                  obtain ⟨rfl, rfl⟩ := h
                  refine ⟨header, segtbl, ?_, hl1, ?_, ?_, rfl, rfl, rfl, rfl, rfl, hl2, rfl,
                    hl3, ?_⟩
                  · rw [hr1, hr2, hr3]
                  · simpa using hcap
                  · simpa using hver
                  · simp only [ne_eq, Decidable.not_not] at hcrc
                    rw [← hcrc, extendCrc32_append, extendCrc32_append]

/-- What `ReadPage` returns on a stream that starts with a fully available page: 27 header
bytes with the capture pattern and version 0, the announced number of segment table bytes and
as many data bytes as they sum to. -/
theorem ReadPage_framed (tbl : Nat → Nat) (header segtbl data rest : List Nat)
    (hlen : header.length = 27) (hcap : header.take 4 = capturePattern)
    (hver : header.getD 4 0 = 0) (hseg : segtbl.length = header.getD 26 0)
    (hdata : data.length = segtbl.sum) :
    ReadPage tbl (header ++ (segtbl ++ (data ++ rest)))
      = if extendCrc32 tbl 0 (header.take 22 ++ [0, 0, 0, 0] ++ header.drop 26 ++ segtbl ++ data)
            = byteOrder.Uint32 ((header.drop 22).take 4) then
          (.ok { Typ := header.getD 5 0,
                 Granule := byteOrder.Uint64 ((header.drop 6).take 8),
                 Serial := byteOrder.Uint32 ((header.drop 14).take 4),
                 Sequence := byteOrder.Uint32 ((header.drop 18).take 4),
                 Crc := byteOrder.Uint32 ((header.drop 22).take 4),
                 SegTable := segtbl.map Int.ofNat, Data := data }, rest)
        else
          (.error (.invalidCrc
            (extendCrc32 tbl 0
              (header.take 22 ++ [0, 0, 0, 0] ++ header.drop 26 ++ segtbl ++ data))
            (byteOrder.Uint32 ((header.drop 22).take 4))), rest) := by
  have h1 : readFull (header ++ (segtbl ++ (data ++ rest))) headsz
      = (.ok header, segtbl ++ (data ++ rest)) := by
    have := readFull_append header (segtbl ++ (data ++ rest))
    rwa [hlen] at this
  have h2 : readFull (segtbl ++ (data ++ rest)) (header.getD 26 0)
      = (.ok segtbl, data ++ rest) := by
    rw [← hseg]; exact readFull_append _ _
  have h3 : readFull (data ++ rest) segtbl.sum = (.ok data, rest) := by
    rw [← hdata]; exact readFull_append _ _
  have hcrc : extendCrc32 tbl (extendCrc32 tbl
      (extendCrc32 tbl 0 (header.take 22 ++ [0, 0, 0, 0] ++ header.drop 26)) segtbl) data
      = extendCrc32 tbl 0 (header.take 22 ++ [0, 0, 0, 0] ++ header.drop 26 ++ segtbl ++ data) := by
    simp only [extendCrc32_append]
  simp only [ReadPage, h1, hcap, hver, h2, h3, hcrc, ne_eq, not_true_eq_false, if_false]
  split_ifs <;> rfl

theorem sum_map_ofNat (l : List Nat) : (l.map Int.ofNat).sum = ((l.sum : Nat) : Int) := by
  induction l with
  | nil => rfl
  | cons a l ih => simp [ih]

theorem byteOrder.PutUint32_Uint32 (a b c d : Nat) (ha : a < 256) (hb : b < 256)
    (hc : c < 256) (hd : d < 256) :
    byteOrder.PutUint32 (byteOrder.Uint32 [a, b, c, d]) = [a, b, c, d] := by
  simp only [byteOrder.Uint32, byteOrder.PutUint32, List.getD_cons_zero, List.getD_cons_succ]
  refine congrArg₂ _ (by omega) (congrArg₂ _ (by omega) (congrArg₂ _ (by omega)
    (congrArg₂ _ (by omega) rfl)))

theorem byteOrder.PutUint64_Uint64 (a b c d e f g h : Nat) (ha : a < 256) (hb : b < 256)
    (hc : c < 256) (hd : d < 256) (he : e < 256) (hf : f < 256) (hg : g < 256)
    (hh : h < 256) :
    byteOrder.PutUint64 (byteOrder.Uint64 [a, b, c, d, e, f, g, h]) = [a, b, c, d, e, f, g, h] := by
  simp only [byteOrder.Uint64, byteOrder.PutUint64, List.getD_cons_zero, List.getD_cons_succ]
  refine congrArg₂ _ (by omega) (congrArg₂ _ (by omega) (congrArg₂ _ (by omega)
    (congrArg₂ _ (by omega) (congrArg₂ _ (by omega) (congrArg₂ _ (by omega)
    (congrArg₂ _ (by omega) (congrArg₂ _ (by omega) rfl)))))))

/-- The header `WritePage` assembles from the fields `ReadPage` took out of a header of bytes
is that header again, up to the checksum field. -/
theorem headerBytes_of_header (header : List Nat) (p : Page) (x : Nat)
    (hlen : header.length = 27) (hbytes : ∀ b ∈ header, b < 256)
    (hcap : header.take 4 = capturePattern) (hver : header.getD 4 0 = 0)
    (htyp : p.Typ = header.getD 5 0)
    (hgran : p.Granule = byteOrder.Uint64 ((header.drop 6).take 8))
    (hser : p.Serial = byteOrder.Uint32 ((header.drop 14).take 4))
    (hseq : p.Sequence = byteOrder.Uint32 ((header.drop 18).take 4))
    (hn : p.SegTable.length = header.getD 26 0) :
    headerBytes p x = header.take 22 ++ byteOrder.PutUint32 x ++ header.drop 26 := by
  rcases header with _ | ⟨a0, _ | ⟨a1, _ | ⟨a2, _ | ⟨a3, _ | ⟨a4, _ | ⟨a5, _ | ⟨a6, _ | ⟨a7, _ | ⟨a8, _ | ⟨a9, _ | ⟨a10, _ | ⟨a11, _ | ⟨a12, _ | ⟨a13, _ | ⟨a14, _ | ⟨a15, _ | ⟨a16, _ | ⟨a17, _ | ⟨a18, _ | ⟨a19, _ | ⟨a20, _ | ⟨a21, _ | ⟨a22, _ | ⟨a23, _ | ⟨a24, _ | ⟨a25, _ | ⟨a26, _ | ⟨x, t⟩⟩⟩⟩⟩⟩⟩⟩⟩⟩⟩⟩⟩⟩⟩⟩⟩⟩⟩⟩⟩⟩⟩⟩⟩⟩⟩⟩
  all_goals first
    | (simp at hlen; done)
    | skip
  simp only [List.mem_cons, forall_eq_or_imp] at hbytes
  obtain ⟨h0, h1, h2, h3, h4, h5, h6, h7, h8, h9, h10, h11, h12, h13, h14, h15, h16, h17, h18,
    h19, h20, h21, h22, h23, h24, h25, h26, -⟩ := hbytes
  simp only [List.take_succ_cons, List.take_zero, List.drop_succ_cons, List.drop_zero,
    List.getD_cons_zero, List.getD_cons_succ, capturePattern, List.cons.injEq, and_true]
    at hcap hver htyp hgran hser hseq hn
  obtain ⟨rfl, rfl, rfl, rfl⟩ := hcap
  subst hver
  have e1 := byteOrder.PutUint64_Uint64 a6 a7 a8 a9 a10 a11 a12 a13 h6 h7 h8 h9 h10 h11 h12 h13
  have e2 := byteOrder.PutUint32_Uint32 a14 a15 a16 a17 h14 h15 h16 h17
  have e3 := byteOrder.PutUint32_Uint32 a18 a19 a20 a21 h18 h19 h20 h21
  have e4 : a26 % 256 = a26 := Nat.mod_eq_of_lt h26
  simp only [headerBytes, capturePattern, htyp, hgran, hser, hseq, hn, e1, e2, e3, e4,
    List.take_succ_cons, List.take_zero, List.drop_succ_cons, List.drop_zero,
    List.cons_append, List.nil_append]

theorem segBytes_of_bytes (p : Page) (segtbl : List Nat) (hst : p.SegTable = segtbl.map Int.ofNat)
    (hb : ∀ b ∈ segtbl, b < 256) : segBytes p = segtbl := by
  unfold segBytes
  rw [hst, List.map_map]
  conv_rhs => rw [← List.map_id segtbl]
  apply List.map_congr_left
  intro b hbm
  have := hb b hbm
  simp only [Function.comp, id, Int.ofNat_eq_coe]
  omega

theorem littleEndian.Uint32_of_PutUint32 (v : Nat) (h : v < 4294967296) :
    littleEndian.Uint32 (littleEndian.PutUint32 v) = v := by
  simp only [littleEndian.Uint32, littleEndian.PutUint32, List.getD_cons_zero,
    List.getD_cons_succ]
  omega

theorem littleEndian.PutUint32_length (v : Nat) : (littleEndian.PutUint32 v).length = 4 := rfl

theorem sliceBytes_append (a b c : List Nat) :
    sliceBytes (a ++ (b ++ c)) a.length (a.length + b.length) = .ok b := by
  unfold sliceBytes
  rw [if_pos ⟨by omega, by simp⟩]
  simp

theorem sliceBytes_eq (hp a b c : List Nat) (lo hi : Nat) (h : hp = a ++ (b ++ c))
    (hlo : lo = a.length) (hhi : hi = a.length + b.length) :
    sliceBytes hp lo hi = .ok b := by
  subst h hlo hhi
  exact sliceBytes_append a b c

theorem comments_foldl (cs : List (List Nat)) (p : List Nat) :
    cs.foldl (fun p r => p ++ littleEndian.PutUint32 (r.length % 4294967296) ++ r) p
      = p ++ (cs.map commentBytes).flatten := by
  induction cs generalizing p with
  | nil => simp
  | cons c cs ih =>
    rw [List.foldl_cons, ih]
    simp [commentBytes]

theorem commentBytes_length (r : List Nat) : (commentBytes r).length = 4 + r.length := by
  simp [commentBytes, littleEndian.PutUint32_length]

theorem ReadOggVorbis.readComments_eq (cs : List (List Nat)) :
    ∀ (pre post : List Nat),
      (pre ++ ((cs.map commentBytes).flatten ++ post)).length < 4294967296 →
      ReadOggVorbis.readComments (pre ++ ((cs.map commentBytes).flatten ++ post)) cs.length
          pre.length
        = .ok (cs, pre.length + ((cs.map commentBytes).flatten).length) := by
  induction cs with
  | nil => intro pre post _; rfl
  | cons c cs ih =>
    intro pre post hlt
    have hsz : (pre ++ (((c :: cs).map commentBytes).flatten ++ post)).length
        = pre.length + (4 + c.length + ((cs.map commentBytes).flatten).length) + post.length := by
      simp only [List.map_cons, List.flatten_cons, List.length_append, commentBytes_length]
      omega
    rw [hsz] at hlt
    have hc : c.length % 4294967296 = c.length := Nat.mod_eq_of_lt (by omega)
    have hshape : pre ++ (((c :: cs).map commentBytes).flatten ++ post)
        = pre ++ (littleEndian.PutUint32 c.length
            ++ (c ++ ((cs.map commentBytes).flatten ++ post))) := by
      simp [commentBytes, hc]
    have hshape2 : pre ++ (((c :: cs).map commentBytes).flatten ++ post)
        = (pre ++ littleEndian.PutUint32 c.length)
            ++ (c ++ ((cs.map commentBytes).flatten ++ post)) := by
      simp [commentBytes, hc]
    have hshape3 : pre ++ (((c :: cs).map commentBytes).flatten ++ post)
        = (pre ++ littleEndian.PutUint32 c.length ++ c)
            ++ ((cs.map commentBytes).flatten ++ post) := by
      simp [commentBytes, hc]
    have hp4 : (pre.length + 4) % 4294967296 = pre.length + 4 := Nat.mod_eq_of_lt (by omega)
    have hpc : (pre.length + 4 + c.length) % 4294967296 = pre.length + 4 + c.length :=
      Nat.mod_eq_of_lt (by omega)
    have s1 := sliceBytes_eq _ pre (littleEndian.PutUint32 c.length)
      (c ++ ((cs.map commentBytes).flatten ++ post)) pre.length (pre.length + 4) hshape rfl rfl
    have s2 := sliceBytes_eq _ (pre ++ littleEndian.PutUint32 c.length) c
      ((cs.map commentBytes).flatten ++ post) (pre.length + 4) (pre.length + 4 + c.length)
      hshape2 (by simp [littleEndian.PutUint32_length])
      (by simp [littleEndian.PutUint32_length])
    have hrec := ih (pre ++ littleEndian.PutUint32 c.length ++ c) post
      (by rw [← hshape3, hsz]; exact hlt)
    rw [← hshape3] at hrec
    have hl3 : (pre ++ littleEndian.PutUint32 c.length ++ c).length
        = pre.length + 4 + c.length := by
      simp only [List.length_append, littleEndian.PutUint32_length]
    rw [hl3] at hrec
    rw [List.length_cons, ReadOggVorbis.readComments]
    simp only [hp4, s1, littleEndian.Uint32_of_PutUint32 c.length (by omega), hpc, s2, hrec]
    congr 2
    simp only [List.map_cons, List.flatten_cons, List.length_append, commentBytes_length]
    omega

theorem commentPacket_length (vendor : List Nat) (comments : List (List Nat)) :
    (commentPacket vendor comments).length
      = 16 + vendor.length + ((comments.map commentBytes).flatten).length := by
  simp only [commentPacket, vorbisMagic, List.length_append, List.length_cons, List.length_nil,
    littleEndian.PutUint32_length]
  omega

theorem comments_flatten_length (cs : List (List Nat)) :
    4 * cs.length ≤ ((cs.map commentBytes).flatten).length := by
  induction cs with
  | nil => simp
  | cons c cs ih =>
    simp only [List.map_cons, List.flatten_cons, List.length_append, commentBytes_length,
      List.length_cons]
    omega

theorem getD_last (l : List Nat) (x : Nat) : (l ++ [x]).getD ((l ++ [x]).length - 1) 0 = x := by
  rw [List.length_append, List.length_singleton, Nat.add_sub_cancel,
    List.getD_eq_getElem?_getD, List.getElem?_append_right (le_refl _)]
  simp

theorem updateCommentFieldPacket_packet (o : OggVorbis) (h3 : o.headerPacket.length = 3)
    (hsize : ((updateCommentFieldPacket o).headerPacket.getD 1 []).length < 4294967296) :
    (updateCommentFieldPacket o).headerPacket.getD 1 []
      = commentPacket o.VendorString o.Comments := by
  have hget : ∀ P : List Nat, (o.headerPacket.set 1 P).getD 1 [] = P := by
    intro P
    rw [List.getD_eq_getElem _ _ (by rw [List.length_set]; omega)]
    simp
  have hraw : (updateCommentFieldPacket o).headerPacket.getD 1 []
      = [0x3, 0x76, 0x6f, 0x72, 0x62, 0x69, 0x73]
          ++ littleEndian.PutUint32 (o.VendorString.length % 4294967296) ++ o.VendorString
          ++ littleEndian.PutUint32 (o.Comments.length % 4294967296)
          ++ (o.Comments.map commentBytes).flatten ++ [1] := by
    simp only [updateCommentFieldPacket, hget, comments_foldl]
  rw [hraw] at hsize ⊢
  have hl := comments_flatten_length o.Comments
  simp only [List.length_append, List.length_cons, List.length_nil,
    littleEndian.PutUint32_length] at hsize
  rw [Nat.mod_eq_of_lt (by omega : o.VendorString.length < 4294967296),
    Nat.mod_eq_of_lt (by omega : o.Comments.length < 4294967296)]
  simp [commentPacket, vorbisMagic]

theorem ReadOggVorbis.parseHeader_commentPacket (oggv : OggVorbis) (vendor : List Nat)
    (comments : List (List Nat))
    (hhp : oggv.headerPacket.getD 1 [] = commentPacket vendor comments)
    (hsize : (commentPacket vendor comments).length < 4294967296) :
    ReadOggVorbis.parseHeader oggv
      = .ok (.ok { oggv with VendorString := vendor, Comments := comments }) := by
  have hlen := commentPacket_length vendor comments
  have hcl := comments_flatten_length comments
  rw [hlen] at hsize
  have s1 : sliceBytes (commentPacket vendor comments) 1 7 = .ok vorbisMagic :=
    sliceBytes_eq _ [0x3] vorbisMagic _ 1 7 rfl rfl rfl
  have s2 : sliceBytes (commentPacket vendor comments) 0 1 = .ok [0x3] :=
    sliceBytes_eq _ [] [0x3] _ 0 1 rfl rfl rfl
  have s3 : sliceBytes (commentPacket vendor comments) 7 11
      = .ok (littleEndian.PutUint32 vendor.length) :=
    sliceBytes_eq _ ([0x3] ++ vorbisMagic) (littleEndian.PutUint32 vendor.length)
      (vendor ++ (littleEndian.PutUint32 comments.length
        ++ ((comments.map commentBytes).flatten ++ [1]))) 7 11
      (by simp [commentPacket]) (by simp [vorbisMagic])
      (by simp [vorbisMagic, littleEndian.PutUint32_length])
  have s4 : sliceBytes (commentPacket vendor comments) 11 (11 + vendor.length) = .ok vendor :=
    sliceBytes_eq _ ([0x3] ++ vorbisMagic ++ littleEndian.PutUint32 vendor.length) vendor
      (littleEndian.PutUint32 comments.length ++ ((comments.map commentBytes).flatten ++ [1]))
      11 (11 + vendor.length) (by simp [commentPacket])
      (by simp [vorbisMagic, littleEndian.PutUint32_length])
      (by simp [vorbisMagic, littleEndian.PutUint32_length])
  have s5 : sliceBytes (commentPacket vendor comments) (11 + vendor.length)
      (11 + vendor.length + 4) = .ok (littleEndian.PutUint32 comments.length) :=
    sliceBytes_eq _ ([0x3] ++ vorbisMagic ++ littleEndian.PutUint32 vendor.length ++ vendor)
      (littleEndian.PutUint32 comments.length) ((comments.map commentBytes).flatten ++ [1])
      _ _ (by simp [commentPacket])
      (by simp only [List.length_append, vorbisMagic, List.length_cons, List.length_nil,
            littleEndian.PutUint32_length])
      (by simp only [List.length_append, vorbisMagic, List.length_cons, List.length_nil,
            littleEndian.PutUint32_length])
  have hrc := ReadOggVorbis.readComments_eq comments
    ([0x3] ++ vorbisMagic ++ littleEndian.PutUint32 vendor.length ++ vendor
      ++ littleEndian.PutUint32 comments.length) [1]
    (by
      have : [0x3] ++ vorbisMagic ++ littleEndian.PutUint32 vendor.length ++ vendor
          ++ littleEndian.PutUint32 comments.length
          ++ ((comments.map commentBytes).flatten ++ [1]) = commentPacket vendor comments := by
        simp [commentPacket]
      rw [this, hlen]; exact hsize)
  have hshape : [0x3] ++ vorbisMagic ++ littleEndian.PutUint32 vendor.length ++ vendor
      ++ littleEndian.PutUint32 comments.length
      ++ ((comments.map commentBytes).flatten ++ [1]) = commentPacket vendor comments := by
    simp [commentPacket]
  have hprel : ([0x3] ++ vorbisMagic ++ littleEndian.PutUint32 vendor.length ++ vendor
      ++ littleEndian.PutUint32 comments.length).length = 11 + vendor.length + 4 := by
    simp only [List.length_append, vorbisMagic, List.length_cons, List.length_nil,
      littleEndian.PutUint32_length]
  rw [hshape, hprel] at hrc
  have m1 : (11 + vendor.length) % 4294967296 = 11 + vendor.length :=
    Nat.mod_eq_of_lt (by omega)
  have m2 : (11 + vendor.length + 4) % 4294967296 = 11 + vendor.length + 4 :=
    Nat.mod_eq_of_lt (by omega)
  have hlast : (commentPacket vendor comments).getD ((commentPacket vendor comments).length - 1) 0
      = 1 := by
    have hne : commentPacket vendor comments
        = ([0x3] ++ vorbisMagic ++ littleEndian.PutUint32 vendor.length ++ vendor
            ++ littleEndian.PutUint32 comments.length ++ (comments.map commentBytes).flatten)
          ++ [1] := by
      simp [commentPacket]
    rw [hne]
    exact getD_last _ 1
  have hnz : ¬ (commentPacket vendor comments).length = 0 := by omega
  have hv : littleEndian.Uint32 (littleEndian.PutUint32 vendor.length) = vendor.length :=
    littleEndian.Uint32_of_PutUint32 _ (by omega)
  have hcn : littleEndian.Uint32 (littleEndian.PutUint32 comments.length) = comments.length :=
    littleEndian.Uint32_of_PutUint32 _ (by omega)
  simp only [ReadOggVorbis.parseHeader, hhp, s1, s2, s3, hv, m1, s4, m2, s5, hcn, hrc, hlast,
    hnz, ne_eq, not_true_eq_false, if_false, List.getD_cons_zero]

theorem Page.segments_fst (st : List Int) (d : List Nat) :
    (Page.segments st d).map Prod.fst = st := by
  induction st generalizing d with
  | nil => rfl
  | cons s st ih => simp [Page.segments, ih]

theorem Page.segments_append (a b : List Int) (d : List Nat) (ha : ∀ s ∈ a, 0 ≤ s) :
    Page.segments (a ++ b) d
      = Page.segments a d ++ Page.segments b (d.drop a.sum.toNat) := by
  induction a generalizing d with
  | nil => simp [Page.segments]
  | cons s a ih =>
    have hs := ha s (List.mem_cons_self _ _)
    have hrest : ∀ t ∈ a, 0 ≤ t := fun t ht => ha t (List.mem_cons_of_mem _ ht)
    have hsum := (sum_take_nonneg a hrest a.length).1
    rw [List.take_length] at hsum
    have : (s + a.sum).toNat = s.toNat + a.sum.toNat := by omega
    rw [List.cons_append, Page.segments, Page.segments, ih _ hrest, List.drop_drop,
      List.sum_cons, this, List.cons_append]

theorem Page.segments_flatten (st : List Int) (d : List Nat) (hst : ∀ s ∈ st, 0 ≤ s) :
    ((Page.segments st d).map Prod.snd).flatten = d.take st.sum.toNat := by
  induction st generalizing d with
  | nil => simp [Page.segments]
  | cons s st ih =>
    have hs := hst s (List.mem_cons_self _ _)
    have hrest : ∀ t ∈ st, 0 ≤ t := fun t ht => hst t (List.mem_cons_of_mem _ ht)
    have hsum := (sum_take_nonneg st hrest st.length).1
    rw [List.take_length] at hsum
    simp only [Page.segments, List.map_cons, List.flatten_cons, ih _ hrest, List.sum_cons]
    have : (s + st.sum).toNat = s.toNat + st.sum.toNat := by omega
    rw [this, List.take_add]

theorem runSegments_done (segs : List (Int × List Nat)) (hp : List (List Nat)) (k : Nat)
    (hk : 3 ≤ k) : runSegments segs (hp, k) = (hp, k) := by
  cases segs with
  | nil => rfl
  | cons x segs =>
    obtain ⟨s, d⟩ := x
    simp only [runSegments, if_neg (by omega : ¬ k < 3)]

theorem runSegments_append (a b : List (Int × List Nat)) (st : List (List Nat) × Nat) :
    runSegments (a ++ b) st = runSegments b (runSegments a st) := by
  induction a generalizing st with
  | nil => rfl
  | cons x a ih =>
    obtain ⟨s, d⟩ := x
    obtain ⟨hp, k⟩ := st
    rw [List.cons_append]
    by_cases hk : k < 3
    · rw [runSegments, if_pos hk, runSegments, if_pos hk]
      exact ih _
    · rw [runSegments, if_neg hk, runSegments, if_neg hk, runSegments_done b hp k (by omega)]

theorem runSegments_length (segs : List (Int × List Nat)) (st : List (List Nat) × Nat) :
    (runSegments segs st).1.length = st.1.length := by
  induction segs generalizing st with
  | nil => rfl
  | cons x segs ih =>
    obtain ⟨s, d⟩ := x
    obtain ⟨hp, k⟩ := st
    by_cases hk : k < 3
    · rw [runSegments, if_pos hk, ih]
      simp
    · rw [runSegments, if_neg hk]

theorem set_getD_append (hp : List (List Nat)) (k : Nat) (a b : List Nat) (hk : k < hp.length) :
    (hp.set k a).set k ((hp.set k a).getD k [] ++ b) = hp.set k (a ++ b) := by
  rw [List.getD_eq_getElem _ _ (by rw [List.length_set]; exact hk)]
  simp

theorem set_getD_self (hp : List (List Nat)) (k : Nat) :
    hp.set k (hp.getD k [] ++ []) = hp := by
  rw [List.append_nil]
  by_cases hk : k < hp.length
  · rw [List.getD_eq_getElem _ _ hk]
    apply List.ext_getElem (by simp)
    intro n h1 h2
    rw [List.getElem_set]
    split_ifs with hkn
    · subst hkn; rfl
    · rfl
  · rw [List.set_eq_of_length_le (by omega)]

theorem runSegments_full (segs : List (Int × List Nat)) (hp : List (List Nat)) (k : Nat)
    (acc : List Nat) (hk : k < 3) (hl : hp.length = 3) (hfull : ∀ x ∈ segs, 255 ≤ x.1) :
    runSegments segs (hp.set k acc, k)
      = (hp.set k (acc ++ (segs.map Prod.snd).flatten), k) := by
  induction segs generalizing acc with
  | nil => simp [runSegments]
  | cons x segs ih =>
    obtain ⟨s, d⟩ := x
    have hs : ¬ s < 255 := by
      have := hfull (s, d) (List.mem_cons_self _ _)
      simp only at this
      omega
    simp only [runSegments, if_pos hk, if_neg hs]
    rw [set_getD_append hp k acc d (by omega),
      ih (acc ++ d) (fun y hy => hfull y (List.mem_cons_of_mem _ hy))]
    simp

theorem runSegments_short (segs : List (Int × List Nat)) (s : Int) (d : List Nat)
    (hp : List (List Nat)) (k : Nat) (acc : List Nat) (hk : k < 3) (hl : hp.length = 3)
    (hfull : ∀ x ∈ segs, 255 ≤ x.1) (hs : s < 255) :
    runSegments (segs ++ [(s, d)]) (hp.set k acc, k)
      = (hp.set k (acc ++ ((segs ++ [(s, d)]).map Prod.snd).flatten), k + 1) := by
  rw [runSegments_append, runSegments_full segs hp k acc hk hl hfull]
  simp only [runSegments, if_pos hk, if_pos hs]
  rw [set_getD_append hp k _ d (by omega)]
  simp

theorem first_short_or_all (l : List Int) :
    (∀ t ∈ l, 255 ≤ t) ∨
    ∃ (i : Nat) (s : Int), l[i]? = some s ∧ s < 255 ∧ ∀ t ∈ l.take i, 255 ≤ t := by
  induction l with
  | nil => left; simp
  | cons a l ih =>
    by_cases ha : a < 255
    · right; exact ⟨0, a, by simp, ha, by simp⟩
    · rcases ih with hall | ⟨i, s, hi, hs, hb⟩
      · left
        intro t ht
        rcases List.mem_cons.1 ht with rfl | h
        · omega
        · exact hall t h
      · right
        refine ⟨i + 1, s, by simpa using hi, hs, ?_⟩
        intro t ht
        rw [List.take_succ_cons] at ht
        rcases List.mem_cons.1 ht with rfl | h
        · omega
        · exact hb t h

theorem Page.segments_take_succ (st : List Int) (d : List Nat) (i : Nat) (s : Int)
    (hi : st[i]? = some s) (hnn : ∀ t ∈ st, 0 ≤ t) :
    Page.segments (st.take (i + 1)) d
      = Page.segments (st.take i) d
          ++ [(s, (d.drop (st.take i).sum.toNat).take s.toNat)] := by
  rw [List.take_succ, hi, Option.toList,
    Page.segments_append _ _ _ (fun t ht => hnn t (List.mem_of_mem_take ht))]
  rfl

theorem sum_take_drop (st : List Int) (n : Nat) : (st.take n).sum + (st.drop n).sum = st.sum := by
  rw [← List.sum_append, List.take_append_drop]

theorem set_getD_id (hp : List (List Nat)) (k : Nat) : hp.set k (hp.getD k []) = hp := by
  have := set_getD_self hp k
  rwa [List.append_nil] at this

theorem ReadOggVorbis.redo_eq (d : Nat) :
    ∀ (k : Nat) (oggv : OggVorbis) (p : Page), k + d = 3 → oggv.headerPacket.length = 3 →
      p.SegTable.length ≤ 255 → (∀ s ∈ p.SegTable, 0 ≤ s ∧ s ≤ 255) →
      (p.Data.length : Int) = p.SegTable.sum →
      ∃ (oggv1 : OggVorbis) (k1 : Nat),
        ReadOggVorbis.redo oggv k p = .ok (oggv1, k1) ∧
        (oggv1.headerPacket, k1)
          = runSegments (Page.segments p.SegTable p.Data) (oggv.headerPacket, k) := by
  induction d with
  | zero =>
    intro k oggv p hk hl _ _ _
    have hk3 : ¬ k < 3 := by omega
    refine ⟨{ oggv with postPages := oggv.postPages ++ [p] }, k, ?_, ?_⟩
    · rw [ReadOggVorbis.redo, if_neg hk3]
    · rw [runSegments_done _ _ _ (by omega)]
  | succ d ih =>
    intro k oggv p hk hl hlen hr hsum
    have hk3 : k < 3 := by omega
    have hnn : ∀ t ∈ p.SegTable, 0 ≤ t := fun t ht => (hr t ht).1
    have hsumnn := (sum_take_nonneg p.SegTable hnn p.SegTable.length).1
    rw [List.take_length] at hsumnn
    have hhp : oggv.headerPacket
        = oggv.headerPacket.set k (oggv.headerPacket.getD k []) :=
      (set_getD_id _ _).symm
    rcases first_short_or_all p.SegTable with hall | ⟨i, s, hi, hs, hbefore⟩
    · have hread := ReadPacket_unfinished p (oggv.headerPacket.getD k []) (by omega) hsum hall
      refine ⟨OggVorbis.mk (oggv.headerPacket.set k (oggv.headerPacket.getD k [] ++ p.Data))
        oggv.postPages oggv.VendorString oggv.Comments, k, ?_, ?_⟩
      · rw [ReadOggVorbis.redo, if_pos hk3, hread]
        simp
      · conv_rhs => rw [hhp]
        rw [runSegments_full _ _ k _ hk3 hl (by
          intro x hx
          have : x.1 ∈ (Page.segments p.SegTable p.Data).map Prod.fst :=
            List.mem_map_of_mem _ hx
          rw [Page.segments_fst] at this
          exact hall _ this), Page.segments_flatten _ _ hnn,
          List.take_of_length_le (by omega)]
    · obtain ⟨fragment, remainder, hsplit, hread⟩ :=
        ReadPacket_finished p (oggv.headerPacket.getD k []) i s hnn hsum hi hs hbefore
      have hil : i < p.SegTable.length := by
        by_contra hc
        rw [List.getElem?_eq_none (by omega)] at hi
        simp at hi
      rw [SplitPage_eq p _ hnn hsum] at hsplit
      have hidx : (min (max ((i : Int) + 1) 0) (p.SegTable.length : Int)).toNat = i + 1 := by
        omega
      rw [hidx] at hsplit
      simp only [Except.ok.injEq, Prod.mk.injEq] at hsplit
      obtain ⟨hf, hrem⟩ := hsplit
      have htd := sum_take_drop p.SegTable (i + 1)
      have htk := sum_take_nonneg p.SegTable hnn (i + 1)
      have hremvalid : remainder.SegTable.length ≤ 255 ∧
          (∀ t ∈ remainder.SegTable, 0 ≤ t ∧ t ≤ 255) ∧
          (remainder.Data.length : Int) = remainder.SegTable.sum := by
        subst hrem
        refine ⟨?_, ?_, ?_⟩
        · simp only [List.length_drop]; omega
        · intro t ht
          exact hr t (List.mem_of_mem_drop ht)
        · simp only [List.length_drop]
          omega
      obtain ⟨oggv1, k1, hredo, hrun⟩ := ih (k + 1)
        (OggVorbis.mk (oggv.headerPacket.set k (oggv.headerPacket.getD k [] ++ fragment.Data))
          oggv.postPages oggv.VendorString oggv.Comments)
        remainder (by omega) (by simp [hl]) hremvalid.1 hremvalid.2.1 hremvalid.2.2
      refine ⟨oggv1, k1, ?_, ?_⟩
      · rw [ReadOggVorbis.redo, if_pos hk3, hread]
        simp only [if_true]
        exact hredo
      · rw [hrun]
        have hst : p.SegTable = p.SegTable.take (i + 1) ++ p.SegTable.drop (i + 1) :=
          (List.take_append_drop _ _).symm
        have hseg : Page.segments p.SegTable p.Data
            = Page.segments (p.SegTable.take (i + 1)) p.Data
              ++ Page.segments (p.SegTable.drop (i + 1))
                  (p.Data.drop (p.SegTable.take (i + 1)).sum.toNat) := by
          conv_lhs => rw [hst]
          exact Page.segments_append _ _ _ (fun t ht => hnn t (List.mem_of_mem_take ht))
        have hfull : ∀ x ∈ Page.segments (p.SegTable.take i) p.Data, 255 ≤ x.1 := by
          intro x hx
          have : x.1 ∈ (Page.segments (p.SegTable.take i) p.Data).map Prod.fst :=
            List.mem_map_of_mem _ hx
          rw [Page.segments_fst] at this
          exact hbefore _ this
        have hfirst : runSegments (Page.segments (p.SegTable.take (i + 1)) p.Data)
            (oggv.headerPacket, k)
            = (oggv.headerPacket.set k (oggv.headerPacket.getD k [] ++ fragment.Data),
               k + 1) := by
          conv_lhs => rw [hhp]
          have hflat := Page.segments_flatten (p.SegTable.take (i + 1)) p.Data
            (fun t ht => hnn t (List.mem_of_mem_take ht))
          rw [Page.segments_take_succ _ _ _ _ hi hnn] at hflat ⊢
          rw [runSegments_short _ _ _ _ k _ hk3 hl hfull hs, hflat, ← hf]
        rw [hseg, runSegments_append, hfirst, ← hrem]

theorem runSegments_le (segs : List (Int × List Nat)) (st : List (List Nat) × Nat)
    (h : st.2 ≤ 3) : (runSegments segs st).2 ≤ 3 := by
  induction segs generalizing st with
  | nil => exact h
  | cons x segs ih =>
    obtain ⟨s, d⟩ := x
    obtain ⟨hp, k⟩ := st
    by_cases hk : k < 3
    · rw [runSegments, if_pos hk]
      apply ih
      simp only
      split_ifs <;> omega
    · rw [runSegments, if_neg hk]
      exact h

theorem ReadOggVorbis.pageLoop_eq (tbl : Nat → Nat) (ps : List Page)
    (hvalid : ∀ p ∈ ps, p.SegTable.length ≤ 255 ∧ (∀ s ∈ p.SegTable, 0 ≤ s ∧ s ≤ 255) ∧
      (p.Data.length : Int) = p.SegTable.sum) :
    ∀ (fuel : Nat) (oggv : OggVorbis) (k : Nat), ps.length < fuel →
      oggv.headerPacket.length = 3 → k ≤ 3 →
      ∃ (oggv1 : OggVorbis) (k1 : Nat),
        ReadOggVorbis.pageLoop tbl fuel (ps.map (fun p => p.encode tbl)).flatten oggv k
          = some (.ok (.ok oggv1)) ∧
        (oggv1.headerPacket, k1)
          = runSegments (ps.map (fun p => Page.segments p.SegTable p.Data)).flatten
              (oggv.headerPacket, k) := by
  induction ps with
  | nil =>
    intro fuel oggv k hfuel _ _
    obtain ⟨f, rfl⟩ : ∃ f, fuel = f + 1 := ⟨fuel - 1, by simp at hfuel; omega⟩
    exact ⟨oggv, k, rfl, rfl⟩
  | cons p ps ih =>
    intro fuel oggv k hfuel hl hk
    obtain ⟨f, rfl⟩ : ∃ f, fuel = f + 1 := ⟨fuel - 1, by simp at hfuel; omega⟩
    have hp := hvalid p (List.mem_cons_self _ _)
    have hrt := ReadPage_encode_append tbl p (ps.map (fun p => p.encode tbl)).flatten
      hp.1 hp.2.1 hp.2.2
    obtain ⟨oggv1, k1, hredo, hrun⟩ := ReadOggVorbis.redo_eq (3 - k) k oggv (p.decoded tbl)
      (by omega) hl hp.1 hp.2.1 hp.2.2
    have hrun2 : (oggv1.headerPacket, k1)
        = runSegments (Page.segments p.SegTable p.Data) (oggv.headerPacket, k) := hrun
    have hl1 : oggv1.headerPacket.length = 3 := by
      have := runSegments_length (Page.segments p.SegTable p.Data) (oggv.headerPacket, k)
      rw [← hrun2] at this
      simpa [hl] using this
    have hk1 : k1 ≤ 3 := by
      have := runSegments_le (Page.segments p.SegTable p.Data) (oggv.headerPacket, k) hk
      rw [← hrun2] at this
      exact this
    obtain ⟨oggv2, k2, hloop, hrun3⟩ := ih (fun q hq => hvalid q (List.mem_cons_of_mem _ hq))
      f oggv1 k1 (by simp at hfuel; omega) hl1 hk1
    refine ⟨oggv2, k2, ?_, ?_⟩
    · simp only [List.map_cons, List.flatten_cons]
      rw [ReadOggVorbis.pageLoop, hrt]
      simp only [hredo]
      exact hloop
    · rw [hrun3, hrun2, List.map_cons, List.flatten_cons, runSegments_append]

theorem runSegments_packets (segs : List (Int × List Nat)) :
    ∀ (done : List (List Nat)) (acc : List Nat) (k : Nat), k < 3 → done.length = k →
      3 - k ≤ (packetsOfSegments acc segs).length →
      (runSegments segs (done ++ acc :: List.replicate (2 - k) [], k)).1
        = done ++ (packetsOfSegments acc segs).take (3 - k) := by
  induction segs with
  | nil =>
    intro done acc k hk _ hlen
    simp [packetsOfSegments] at hlen
    omega
  | cons x segs ih =>
    intro done acc k hk hd hlen
    obtain ⟨s, d⟩ := x
    have hset : (done ++ acc :: List.replicate (2 - k) []).set k
        ((done ++ acc :: List.replicate (2 - k) []).getD k [] ++ d)
        = done ++ (acc ++ d) :: List.replicate (2 - k) [] := by
      rw [List.getD_eq_getElem _ _ (by simp; omega)]
      subst hd
      rw [List.getElem_append_right (le_refl _), List.set_append_right _ _ (le_refl _)]
      simp
    rw [runSegments, if_pos hk, hset]
    by_cases hs : s < 255
    · rw [if_pos hs]
      rw [packetsOfSegments, if_pos hs] at hlen ⊢
      by_cases hk2 : k + 1 < 3
      · have hrep : List.replicate (2 - k) ([] : List Nat)
            = [] :: List.replicate (2 - (k + 1)) [] := by
          have : 2 - k = (2 - (k + 1)) + 1 := by omega
          rw [this, List.replicate_succ]
        have := ih (done ++ [acc ++ d]) [] (k + 1) hk2 (by simp [hd])
          (by simp only [List.length_cons] at hlen; omega)
        rw [hrep]
        have e1 : done ++ (acc ++ d) :: [] :: List.replicate (2 - (k + 1)) []
            = (done ++ [acc ++ d]) ++ [] :: List.replicate (2 - (k + 1)) [] := by simp
        rw [e1, this]
        have e2 : 3 - k = (3 - (k + 1)) + 1 := by omega
        rw [e2, List.take_succ_cons]
        simp
      · have hk3 : k = 2 := by omega
        subst hk3
        rw [runSegments_done _ _ _ (by omega)]
        simp
    · rw [if_neg hs]
      rw [packetsOfSegments, if_neg hs] at hlen ⊢
      exact ih done (acc ++ d) k hk hd hlen

/-- The table derived from the Ogg polynomial has the entries of the published Ogg table at
the indices 0, 1, 2, 128 and 255. -/
theorem crcTableOf.ogg_entries :
    crcTableOf oggPolynomial 0 = 0 ∧ crcTableOf oggPolynomial 1 = 0x04c11db7 ∧
    crcTableOf oggPolynomial 2 = 0x09823b6e ∧ crcTableOf oggPolynomial 128 = 0x690ce0ee ∧
    crcTableOf oggPolynomial 255 = 0xb1f740b4 := by
  decide

/-- C1. Encode-then-decode round trip: for every page with at most 255 segment lengths, each
in 0..255, whose data is as long as their sum (its `Granule`, `Serial` and `Sequence` being
values of their Go types `uint64` and `uint32`), `WritePage` to a writer that never fails
returns no error, and `ReadPage` on exactly the bytes it emitted succeeds, consumes them all,
and returns a page with the same `Type`, `Granule`, `Serial`, `Sequence`, `SegTable` and
`Data`, whose `Crc` is the big-endian value of bytes 22..25 of the output. -/
theorem C1_WritePage_ReadPage_roundtrip (crcTable : Nat → Nat) (w : Writer) (p : Page)
    (hw : w.failAfter = none)
    (hlen : p.SegTable.length ≤ 255) (hr : ∀ s ∈ p.SegTable, 0 ≤ s ∧ s ≤ 255)
    (hsum : (p.Data.length : Int) = p.SegTable.sum)
    (hg : p.Granule < 18446744073709551616) (hser : p.Serial < 4294967296)
    (hseq : p.Sequence < 4294967296) :
    ∃ out : List (List Nat),
      WritePage crcTable w p = ({ w with written := w.written ++ out }, none) ∧
      ReadPage crcTable out.flatten
        = (.ok { p with Crc := byteOrder.Uint32 ((out.flatten.drop 22).take 4) }, []) := by
  refine ⟨[WritePage.head p (WritePage.crc crcTable p), p.Data],
    WritePage_ok crcTable w p hw hlen, ?_⟩
  have hrt := ReadPage_encode_append crcTable p [] hlen hr hsum
  have hflat : [WritePage.head p (WritePage.crc crcTable p), p.Data].flatten
      = p.encode crcTable := by
    simp [Page.encode]
  have hcrc : byteOrder.Uint32 (((p.encode crcTable).drop 22).take 4)
      = WritePage.crc crcTable p := by
    have : ((p.encode crcTable).drop 22).take 4
        = byteOrder.PutUint32 (WritePage.crc crcTable p) := rfl
    rw [this, byteOrder.Uint32_PutUint32, Nat.mod_eq_of_lt (WritePage.crc_lt crcTable p)]
  rw [hflat, hcrc]
  rw [List.append_nil] at hrt
  rw [hrt]
  simp [Page.decoded, Nat.mod_eq_of_lt hg, Nat.mod_eq_of_lt hser, Nat.mod_eq_of_lt hseq]

/-- Witness for C1: the round trip of a page with segment table `[2, 1]`. -/
theorem C1_WritePage_ReadPage_roundtrip_witness :
    Writer.fresh.failAfter = none ∧ Page.small.SegTable.length ≤ 255 ∧
    (Page.small.Data.length : Int) = Page.small.SegTable.sum ∧
    ∃ out : List (List Nat),
      WritePage (fun _ => 0) Writer.fresh Page.small
        = ({ Writer.fresh with written := Writer.fresh.written ++ out }, none) ∧
      ReadPage (fun _ => 0) out.flatten
        = (.ok { Page.small with Crc := byteOrder.Uint32 ((out.flatten.drop 22).take 4) }, []) :=
  ⟨rfl, by decide, by decide,
    C1_WritePage_ReadPage_roundtrip (fun _ => 0) Writer.fresh Page.small rfl (by decide)
      (by decide) (by decide) (by decide) (by decide) (by decide)⟩

/-- C2. Packet round trip: when `WritePacket` writes `packet` to a writer that never fails, the
emitted bytes decode page by page with `ReadPage`, every call succeeding; `ReadPacket`, called
on the decoded pages in order with one packet buffer that starts empty, returns
`finished = false` on every page but the last and `finished = true` on the last, where the
remainder has an empty segment table and no data; and the buffer at the end is `packet`. -/
theorem C2_WritePacket_ReadPacket_roundtrip (crcTable : Nat → Nat) (w : Writer)
    (packet : List Nat) (granule serial sequenceStart flags : Nat) (hw : w.failAfter = none) :
    ∃ (r : WriteResult) (out : List (List Nat)) (pages : List Page)
      (front : List (Bool × Page × Page)) (last : Bool × Page × Page),
      WritePacket crcTable w packet granule serial sequenceStart flags = .ok r ∧
      r.err = none ∧
      r.writer.written = w.written ++ out ∧
      pages.length = r.pages.length ∧
      (∀ fuel, pages.length ≤ fuel → readPages crcTable fuel out.flatten = some pages) ∧
      readPackets pages [] = .ok (front ++ [last], packet) ∧
      (∀ x ∈ front, x.1 = false) ∧
      last.1 = true ∧ last.2.2.SegTable = [] ∧ last.2.2.Data = [] := by
  have hn1 : WritePacket.numPages packet.length - 1 + 1 = WritePacket.numPages packet.length := by
    have := WritePacket.numPages_pos packet.length
    omega
  have hwf : ∀ p ∈ (List.range (WritePacket.numPages packet.length)).map
      (WritePacket.pageAt packet granule serial sequenceStart flags),
      p.SegTable.length ≤ 255 ∧ (∀ s ∈ p.SegTable, 0 ≤ s ∧ s ≤ 255) ∧
        (p.Data.length : Int) = p.SegTable.sum := by
    intro p hp
    simp only [List.mem_map, List.mem_range] at hp
    obtain ⟨k, hk, rfl⟩ := hp
    have := WritePacket.pageAt_wf packet granule serial sequenceStart flags k hk
    exact ⟨this.2.1, this.2.2.1, this.2.2.2.1⟩
  have hsplit : (List.range (WritePacket.numPages packet.length)).map
        (fun k => (WritePacket.pageAt packet granule serial sequenceStart flags k).decoded crcTable)
      = (List.range (WritePacket.numPages packet.length - 1)).map
          (fun k => (WritePacket.pageAt packet granule serial sequenceStart flags k).decoded
            crcTable)
        ++ [(WritePacket.pageAt packet granule serial sequenceStart flags
              (WritePacket.numPages packet.length - 1)).decoded crcTable] := by
    conv_lhs => rw [← hn1, List.range_succ, List.map_append]
    rfl
  have hlastwf := WritePacket.pageAt_wf packet granule serial sequenceStart flags
    (WritePacket.numPages packet.length - 1) (by omega)
  have hnum : WritePacket.numPages packet.length = (packet.length / 255 + 1 + 254) / 255 := rfl
  have hlastseg := WritePacket.segTable_last packet.length
    (WritePacket.numPages packet.length - 1) (by omega) (by omega)
  have hrp := readPackets_packet
    ((List.range (WritePacket.numPages packet.length - 1)).map
      (fun k => (WritePacket.pageAt packet granule serial sequenceStart flags k).decoded crcTable))
    ((WritePacket.pageAt packet granule serial sequenceStart flags
      (WritePacket.numPages packet.length - 1)).decoded crcTable) []
    (by
      intro p hp
      simp only [List.mem_map, List.mem_range] at hp
      obtain ⟨k, hk, rfl⟩ := hp
      have hwfk := WritePacket.pageAt_wf packet granule serial sequenceStart flags k (by omega)
      have hseg := WritePacket.segTable_more packet.length k (by omega)
      refine ⟨?_, hwfk.2.2.2.1, ?_⟩
      · have := hwfk.2.1
        rw [Page.decoded_SegTable]
        omega
      · intro t ht
        rw [Page.decoded_SegTable] at ht
        have hst : (WritePacket.pageAt packet granule serial sequenceStart flags k).SegTable
            = ((WritePacket.masterSegTbl packet.length).drop (255 * k)).take 255 := rfl
        rw [hst, hseg, List.mem_replicate] at ht
        omega)
    hlastwf.2.2.2.1
    (fun t ht => (hlastwf.2.2.1 t ht).1)
    (packet.length / 255 - 255 * (WritePacket.numPages packet.length - 1))
    ((packet.length % 255 : Nat) : Int)
    (by
      show (((WritePacket.masterSegTbl packet.length).drop
        (255 * (WritePacket.numPages packet.length - 1))).take 255).length = _
      rw [hlastseg]; simp)
    (by
      show (((WritePacket.masterSegTbl packet.length).drop
        (255 * (WritePacket.numPages packet.length - 1))).take 255)[_]? = _
      rw [hlastseg]; simp)
    (by omega)
    (by
      intro t ht
      have hst : ((WritePacket.pageAt packet granule serial sequenceStart flags
          (WritePacket.numPages packet.length - 1)).decoded crcTable).SegTable
          = ((WritePacket.masterSegTbl packet.length).drop
              (255 * (WritePacket.numPages packet.length - 1))).take 255 := rfl
      rw [hst, hlastseg, List.take_left' (by simp), List.mem_replicate] at ht
      omega)
  refine ⟨_, _,
    ((List.range (WritePacket.numPages packet.length)).map
      (WritePacket.pageAt packet granule serial sequenceStart flags)).map
        (fun p => p.decoded crcTable),
    ((List.range (WritePacket.numPages packet.length - 1)).map
      (fun k => (WritePacket.pageAt packet granule serial sequenceStart flags k).decoded
        crcTable)).map (fun p => (false, p, { p with SegTable := [], Data := [] })),
    (true, (WritePacket.pageAt packet granule serial sequenceStart flags
      (WritePacket.numPages packet.length - 1)).decoded crcTable,
      { (WritePacket.pageAt packet granule serial sequenceStart flags
          (WritePacket.numPages packet.length - 1)).decoded crcTable with
        SegTable := [], Data := [] }),
    WritePacket_eq crcTable w packet granule serial sequenceStart flags hw,
    rfl, Writer.afterPages_written crcTable w _, ?_, ?_, ?_, ?_, rfl, rfl, rfl⟩
  · simp
  · intro fuel hfuel
    rw [flatten_page_writes]
    exact readPages_encode crcTable _ hwf fuel (by simpa using hfuel)
  · have hd : (List.map (fun p => p.Data)
        ((List.range (WritePacket.numPages packet.length)).map
          (fun k => (WritePacket.pageAt packet granule serial sequenceStart flags k).decoded
            crcTable))).flatten = packet := by
      have := WritePacket.pages_data packet granule serial sequenceStart flags
      rw [List.map_map] at this ⊢
      exact this
    rw [← hsplit, hd, List.nil_append] at hrp
    rw [List.map_map]
    exact hrp
  · intro x hx
    simp only [List.mem_map] at hx
    obtain ⟨p, -, rfl⟩ := hx
    rfl

/-- Witness for C2: the round trip of the packet `1, 2, 3`. -/
theorem C2_WritePacket_ReadPacket_roundtrip_witness :
    Writer.fresh.failAfter = none ∧
    ∃ (r : WriteResult) (out : List (List Nat)) (pages : List Page)
      (front : List (Bool × Page × Page)) (last : Bool × Page × Page),
      WritePacket (fun _ => 0) Writer.fresh [1, 2, 3] 5 1 0 2 = .ok r ∧
      r.err = none ∧
      r.writer.written = Writer.fresh.written ++ out ∧
      pages.length = r.pages.length ∧
      (∀ fuel, pages.length ≤ fuel → readPages (fun _ => 0) fuel out.flatten = some pages) ∧
      readPackets pages [] = .ok (front ++ [last], [1, 2, 3]) ∧
      (∀ x ∈ front, x.1 = false) ∧
      last.1 = true ∧ last.2.2.SegTable = [] ∧ last.2.2.Data = [] :=
  ⟨rfl, C2_WritePacket_ReadPacket_roundtrip (fun _ => 0) Writer.fresh [1, 2, 3] 5 1 0 2 rfl⟩

/-- C3. Segmentation by `WritePacket`: with a writer that never fails, the segment tables of
the emitted pages, concatenated, are `packet.length / 255` entries 255 followed by the entry
`packet.length % 255` (so `[255, 0]` for a packet of 255 bytes); every emitted page has
between 1 and 255 segment table entries and data as long as the sum of its table, at most
65025; and the data of the pages, concatenated, is the packet. -/
theorem C3_WritePacket_segmentation (crcTable : Nat → Nat) (w : Writer) (packet : List Nat)
    (granule serial sequenceStart flags : Nat) (hw : w.failAfter = none) :
    ∃ r : WriteResult,
      WritePacket crcTable w packet granule serial sequenceStart flags = .ok r ∧
      r.err = none ∧
      r.writer = w.afterPages crcTable r.pages ∧
      (r.pages.map (fun p => p.SegTable)).flatten
        = List.replicate (packet.length / 255) (255 : Int)
            ++ [((packet.length % 255 : Nat) : Int)] ∧
      (packet.length = 255 → (r.pages.map (fun p => p.SegTable)).flatten = [255, 0]) ∧
      (∀ p ∈ r.pages, 1 ≤ p.SegTable.length ∧ p.SegTable.length ≤ 255 ∧
        (p.Data.length : Int) = p.SegTable.sum ∧ p.Data.length ≤ 65025) ∧
      (r.pages.map (fun p => p.Data)).flatten = packet := by
  refine ⟨_, WritePacket_eq crcTable w packet granule serial sequenceStart flags hw,
    rfl, rfl, ?_, ?_, ?_, ?_⟩
  · exact WritePacket.pages_segTables packet granule serial sequenceStart flags
  · intro h
    have := WritePacket.pages_segTables packet granule serial sequenceStart flags
    simp only [] at this ⊢
    rw [this, h]
    rfl
  · intro p hp
    simp only [List.mem_map, List.mem_range] at hp
    obtain ⟨k, hk, rfl⟩ := hp
    have := WritePacket.pageAt_wf packet granule serial sequenceStart flags k hk
    exact ⟨this.1, this.2.1, this.2.2.2.1, this.2.2.2.2⟩
  · exact WritePacket.pages_data packet granule serial sequenceStart flags

/-- Witness for C3: the segmentation of a packet of 255 bytes. -/
theorem C3_WritePacket_segmentation_witness :
    ∃ r : WriteResult,
      WritePacket (fun _ => 0) Writer.fresh (List.replicate 255 7) 5 1 0 6 = .ok r ∧
      r.err = none ∧
      r.writer = Writer.fresh.afterPages (fun _ => 0) r.pages ∧
      (r.pages.map (fun p => p.SegTable)).flatten
        = List.replicate ((List.replicate 255 7).length / 255) (255 : Int)
            ++ [(((List.replicate 255 7).length % 255 : Nat) : Int)] ∧
      ((List.replicate 255 7).length = 255 →
        (r.pages.map (fun p => p.SegTable)).flatten = [255, 0]) ∧
      (∀ p ∈ r.pages, 1 ≤ p.SegTable.length ∧ p.SegTable.length ≤ 255 ∧
        (p.Data.length : Int) = p.SegTable.sum ∧ p.Data.length ≤ 65025) ∧
      (r.pages.map (fun p => p.Data)).flatten = List.replicate 255 7 :=
  C3_WritePacket_segmentation (fun _ => 0) Writer.fresh (List.replicate 255 7) 5 1 0 6 rfl

/-- C4. Flags and granule of the pages `WritePacket` emits: with a writer that never fails,
page `k` of the `n` emitted pages has the continuation bit (bit 0) set exactly when `0 < k`,
the beginning-of-stream bit (bit 1) exactly when `k = 0` and `flags` has it, the end-of-stream
bit (bit 2) exactly when `k = n - 1` and `flags` has it, and no other bit; its granule is the
caller's when `k = n - 1` and `18446744073709551615` otherwise.  A packet of 70000 bytes gives
two pages, the second with the continuation bit and the caller's granule, the first with the
all-ones granule. -/
theorem C4_WritePacket_flags_granule (crcTable : Nat → Nat) (w : Writer) (packet : List Nat)
    (granule serial sequenceStart flags : Nat) (hw : w.failAfter = none) :
    ∃ r : WriteResult,
      WritePacket crcTable w packet granule serial sequenceStart flags = .ok r ∧
      r.err = none ∧
      (∀ k (hk : k < r.pages.length),
        (r.pages[k].Typ.testBit 0 = true ↔ 0 < k) ∧
        (r.pages[k].Typ.testBit 1 = true ↔ k = 0 ∧ flags.testBit 1 = true) ∧
        (r.pages[k].Typ.testBit 2 = true ↔ k + 1 = r.pages.length ∧ flags.testBit 2 = true) ∧
        (∀ i, 3 ≤ i → r.pages[k].Typ.testBit i = false) ∧
        r.pages[k].Granule
          = if k + 1 = r.pages.length then granule else 18446744073709551615) ∧
      (packet.length = 70000 →
        ∃ p0 p1 : Page, r.pages = [p0, p1] ∧ p1.Typ.testBit 0 = true ∧
          p1.Granule = granule ∧ p0.Granule = 18446744073709551615) := by
  refine ⟨_, WritePacket_eq crcTable w packet granule serial sequenceStart flags hw,
    rfl, ?_, ?_⟩
  · intro k hk
    simp only [List.length_map, List.length_range] at hk ⊢
    simp only [List.getElem_map, List.getElem_range]
    have hbits := WritePacket.pageAt_bits packet granule serial sequenceStart flags k
    have hlast : packet.length / 255 + 1 ≤ 255 * (k + 1)
        ↔ k + 1 = WritePacket.numPages packet.length := by
      unfold WritePacket.numPages at hk ⊢
      constructor <;> intro _ <;> omega
    refine ⟨hbits.1, hbits.2.1, ?_, hbits.2.2.2, ?_⟩
    · rw [hbits.2.2.1, hlast]
    · show (if packet.length / 255 + 1 ≤ 255 * (k + 1) then granule
          else 18446744073709551615) = _
      simp only [hlast]
  · intro hL
    have hn : WritePacket.numPages packet.length = 2 := by
      rw [hL]; rfl
    refine ⟨WritePacket.pageAt packet granule serial sequenceStart flags 0,
      WritePacket.pageAt packet granule serial sequenceStart flags 1, ?_, ?_, ?_, ?_⟩
    · simp only [hn]; rfl
    · exact (WritePacket.pageAt_bits packet granule serial sequenceStart flags 1).1.2
        (by norm_num)
    · show (if packet.length / 255 + 1 ≤ 255 * (1 + 1) then granule
          else 18446744073709551615) = granule
      rw [hL]; rfl
    · show (if packet.length / 255 + 1 ≤ 255 * (0 + 1) then granule
          else 18446744073709551615) = 18446744073709551615
      rw [hL]; rfl

/-- Witness for C4: the flags of the pages of the packet `1, 2, 3` written with flags 6. -/
theorem C4_WritePacket_flags_granule_witness :
    Writer.fresh.failAfter = none ∧
    ∃ r : WriteResult,
      WritePacket (fun _ => 0) Writer.fresh [1, 2, 3] 5 1 0 6 = .ok r ∧
      r.err = none ∧
      (∀ k (hk : k < r.pages.length),
        (r.pages[k].Typ.testBit 0 = true ↔ 0 < k) ∧
        (r.pages[k].Typ.testBit 1 = true ↔ k = 0 ∧ Nat.testBit 6 1 = true) ∧
        (r.pages[k].Typ.testBit 2 = true ↔ k + 1 = r.pages.length ∧ Nat.testBit 6 2 = true) ∧
        (∀ i, 3 ≤ i → r.pages[k].Typ.testBit i = false) ∧
        r.pages[k].Granule = if k + 1 = r.pages.length then 5 else 18446744073709551615) ∧
      (([1, 2, 3] : List Nat).length = 70000 →
        ∃ p0 p1 : Page, r.pages = [p0, p1] ∧ p1.Typ.testBit 0 = true ∧
          p1.Granule = 5 ∧ p0.Granule = 18446744073709551615) :=
  ⟨rfl, C4_WritePacket_flags_granule (fun _ => 0) Writer.fresh [1, 2, 3] 5 1 0 6 rfl⟩

/-- C5. Sequence numbering of `WritePacket`: with a writer that never fails the call returns,
having emitted exactly `⌈(packet.length / 255 + 1) / 255⌉` pages; page `k` has sequence number
`(sequenceStart + k) mod 2^32` and the caller's serial; the value returned is
`(sequenceStart + n) mod 2^32` with no error. -/
theorem C5_WritePacket_sequence (crcTable : Nat → Nat) (w : Writer) (packet : List Nat)
    (granule serial sequenceStart flags : Nat) (hw : w.failAfter = none) :
    ∃ r : WriteResult,
      WritePacket crcTable w packet granule serial sequenceStart flags = .ok r ∧
      r.err = none ∧
      r.writer = w.afterPages crcTable r.pages ∧
      r.pages.length = (packet.length / 255 + 1 + 254) / 255 ∧
      (∀ k (hk : k < r.pages.length),
        r.pages[k].Sequence = (sequenceStart + k) % 4294967296 ∧
        r.pages[k].Serial = serial) ∧
      r.next = (sequenceStart + (packet.length / 255 + 1 + 254) / 255) % 4294967296 := by
  refine ⟨_, WritePacket_eq crcTable w packet granule serial sequenceStart flags hw,
    rfl, rfl, ?_, ?_, rfl⟩
  · simp [WritePacket.numPages]
  · intro k hk
    simp only [List.getElem_map, List.getElem_range]
    exact ⟨rfl, rfl⟩

/-- Witness for C5: the numbering from `sequenceStart = 4294967295`, which wraps to 0. -/
theorem C5_WritePacket_sequence_witness :
    Writer.fresh.failAfter = none ∧
    ∃ r : WriteResult,
      WritePacket (fun _ => 0) Writer.fresh [1, 2, 3] 5 1 4294967295 6 = .ok r ∧
      r.err = none ∧
      r.writer = Writer.fresh.afterPages (fun _ => 0) r.pages ∧
      r.pages.length = (([1, 2, 3] : List Nat).length / 255 + 1 + 254) / 255 ∧
      (∀ k (hk : k < r.pages.length),
        r.pages[k].Sequence = (4294967295 + k) % 4294967296 ∧
        r.pages[k].Serial = 1) ∧
      r.next = (4294967295 + (([1, 2, 3] : List Nat).length / 255 + 1 + 254) / 255)
        % 4294967296 :=
  ⟨rfl, C5_WritePacket_sequence (fun _ => 0) Writer.fresh [1, 2, 3] 5 1 4294967295 6 rfl⟩

/-- C6, as amended. `SplitPage` partitions a page at a clamped segment index: for every page
whose segment lengths are non-negative and whose data is as long as their sum, and every
integer `segmentIndex`, with `k = min (max segmentIndex 0) (len SegTable)` and `d` the sum of
the first `k` segment lengths, `SplitPage` returns the first `k` entries with the first `d`
data bytes, and the remaining entries with the remaining bytes, both halves keeping `Type`,
`Granule`, `Serial`, `Sequence` and `Crc`.  Index 0 gives an empty first half and `p` as second
half; index `len SegTable` gives `p` and an empty second half. -/
theorem C6_SplitPage_partition (p : Page) (segmentIndex : Int)
    (hnn : ∀ s ∈ p.SegTable, 0 ≤ s) (hsum : (p.Data.length : Int) = p.SegTable.sum) :
    SplitPage p segmentIndex
      = .ok ({ p with
                SegTable := p.SegTable.take (min (max segmentIndex 0) p.SegTable.length).toNat,
                Data := p.Data.take (p.SegTable.take
                  (min (max segmentIndex 0) p.SegTable.length).toNat).sum.toNat },
             { p with
                SegTable := p.SegTable.drop (min (max segmentIndex 0) p.SegTable.length).toNat,
                Data := p.Data.drop (p.SegTable.take
                  (min (max segmentIndex 0) p.SegTable.length).toNat).sum.toNat }) ∧
    SplitPage p 0 = .ok ({ p with SegTable := [], Data := [] }, p) ∧
    SplitPage p p.SegTable.length = .ok (p, { p with SegTable := [], Data := [] }) := by
  refine ⟨SplitPage_eq p segmentIndex hnn hsum, ?_, ?_⟩
  · rw [SplitPage_eq p 0 hnn hsum]
    have hk : (min (max (0 : Int) 0) (p.SegTable.length : Int)).toNat = 0 := by omega
    simp [hk]
  · rw [SplitPage_eq p _ hnn hsum]
    have hk : (min (max (p.SegTable.length : Int) 0) (p.SegTable.length : Int)).toNat
        = p.SegTable.length := by omega
    have hd : (p.SegTable.sum).toNat = p.Data.length := by omega
    simp [hk, hd]

/-- Witness for C6: a page with segment table `[2, 1]` split at index 1. -/
theorem C6_SplitPage_partition_witness :
    SplitPage { Typ := 1, Granule := 2, Serial := 3, Sequence := 4, Crc := 5,
                SegTable := [2, 1], Data := [10, 11, 12] } 1
      = .ok ({ Typ := 1, Granule := 2, Serial := 3, Sequence := 4, Crc := 5,
               SegTable := [2], Data := [10, 11] },
             { Typ := 1, Granule := 2, Serial := 3, Sequence := 4, Crc := 5,
               SegTable := [1], Data := [12] }) :=
  (C6_SplitPage_partition
    { Typ := 1, Granule := 2, Serial := 3, Sequence := 4, Crc := 5,
      SegTable := [2, 1], Data := [10, 11, 12] } 1 (by decide) (by decide)).1

/-- C6 as stated fails: the page with segment table `[-1, 1]` and no data has data as long as
the sum of its table, and `SplitPage` at index 1 panics on `p.Data[ds:]` with `ds = -1`. -/
theorem C6_SplitPage_counterexample :
    ((([] : List Nat).length : Int) = ([-1, 1] : List Int).sum) ∧
    SplitPage { Typ := 0, Granule := 0, Serial := 0, Sequence := 0, Crc := 0,
                SegTable := [-1, 1], Data := [] } 1 = .error .sliceBounds :=
  ⟨by decide, rfl⟩

/-- C7. `ReadPacket` splits at the first terminating segment: for a page with at most 255
segment lengths in 0..255 whose data is as long as their sum, and a buffer holding `b`: if `i`
is the least index with an entry below 255, the result is `finished = true` with
`(fragment, remainder) = SplitPage p (i + 1)`; if no entry is below 255, it is
`finished = false`, `fragment = p` and a remainder with empty segment table and data; the
buffer afterwards is `b` followed by `fragment.Data`. -/
theorem C7_ReadPacket_split (p : Page) (b : List Nat)
    (hlen : p.SegTable.length ≤ 255) (hr : ∀ s ∈ p.SegTable, 0 ≤ s ∧ s ≤ 255)
    (hsum : (p.Data.length : Int) = p.SegTable.sum) :
    (∀ (i : Nat) (s : Int), p.SegTable[i]? = some s → s < 255 →
      (∀ t ∈ p.SegTable.take i, ¬ t < 255) →
      ∃ fragment remainder : Page,
        SplitPage p ((i : Int) + 1) = .ok (fragment, remainder) ∧
        ReadPacket p (some b) = .ok (true, fragment, remainder, b ++ fragment.Data)) ∧
    ((∀ t ∈ p.SegTable, ¬ t < 255) →
      ReadPacket p (some b)
        = .ok (false, p, { p with SegTable := [], Data := [] }, b ++ p.Data)) := by
  have hnn : ∀ t ∈ p.SegTable, 0 ≤ t := fun t ht => (hr t ht).1
  constructor
  · intro i s hi hs hbefore
    exact ReadPacket_finished p b i s hnn hsum hi hs
      (fun t ht => by have := hbefore t ht; omega)
  · intro hall
    exact ReadPacket_unfinished p b (by omega) hsum
      (fun t ht => by have := hall t ht; omega)

/-- Witness for C7: a page with segment table `[2, 1]`, whose packet ends at index 0. -/
theorem C7_ReadPacket_split_witness :
    ∃ fragment remainder : Page,
      SplitPage { Typ := 0, Granule := 0, Serial := 0, Sequence := 0, Crc := 0,
                  SegTable := [2, 1], Data := [10, 11, 12] } ((0 : Nat) + 1)
        = .ok (fragment, remainder) ∧
      ReadPacket { Typ := 0, Granule := 0, Serial := 0, Sequence := 0, Crc := 0,
                   SegTable := [2, 1], Data := [10, 11, 12] } (some [9])
        = .ok (true, fragment, remainder, [9] ++ fragment.Data) :=
  (C7_ReadPacket_split
    { Typ := 0, Granule := 0, Serial := 0, Sequence := 0, Crc := 0,
      SegTable := [2, 1], Data := [10, 11, 12] } [9]
    (by decide) (by decide) (by decide)).1 0 2 rfl (by decide) (by simp)

/-- C8 fails on the code: with a nil packet pointer `ReadPacket` never returns; it panics on
the store `*packet = ...` through the nil pointer, for instance on the page with segment table
`[0]` and no data. -/
theorem C8_ReadPacket_nil_panics :
    (∀ (p : Page) (r : Bool × Page × Page × List Nat), ReadPacket p none ≠ .ok r) ∧
    ReadPacket { Typ := 0, Granule := 0, Serial := 0, Sequence := 0, Crc := 0,
                 SegTable := [0], Data := [] } none = .error .nilDereference ∧
    ReadPacket { Typ := 0, Granule := 0, Serial := 0, Sequence := 0, Crc := 0,
                 SegTable := [0], Data := [] } (some [])
      = .ok (true,
             { Typ := 0, Granule := 0, Serial := 0, Sequence := 0, Crc := 0,
               SegTable := [0], Data := [] },
             { Typ := 0, Granule := 0, Serial := 0, Sequence := 0, Crc := 0,
               SegTable := [], Data := [] }, []) :=
  ⟨ReadPacket_nil, rfl, rfl⟩

/-- C9 fails on the code.  `ReadPage` on an empty stream returns `io.EOF`, as claimed.  On the
first `n` bytes of the bytes `WritePage` emits for a well-formed page, `n` below their number,
it returns `io.EOF` when `n` is 0, 27 (cut right after the fixed header) or 27 plus the number
of segments (cut right after the segment table), and `io.ErrUnexpectedEOF` for every other `n`.
So the first 27 and the first 28 bytes of the 29-byte encoding of the page with segment table
`[1]` and data `[7]`, which are non-empty and proper, give `io.EOF`; the first 26 give
`io.ErrUnexpectedEOF`. -/
theorem C9_ReadPage_truncation (crcTable : Nat → Nat) :
    ReadPage crcTable [] = (.error .EOF, []) ∧
    (∀ (p : Page) (n : Nat), p.SegTable.length ≤ 255 →
      (∀ s ∈ p.SegTable, 0 ≤ s ∧ s ≤ 255) → (p.Data.length : Int) = p.SegTable.sum →
      n < (WritePage crcTable Writer.fresh p).1.bytes.length →
      ReadPage crcTable ((WritePage crcTable Writer.fresh p).1.bytes.take n)
        = (.error (if n = 0 ∨ n = 27 ∨ n = 27 + p.SegTable.length then .EOF
                   else .ErrUnexpectedEOF), [])) ∧
    (WritePage crcTable Writer.fresh Page.oneByte).1.bytes.length = 29 ∧
    (∃ q, ReadPage crcTable (WritePage crcTable Writer.fresh Page.oneByte).1.bytes
      = (.ok q, [])) ∧
    ReadPage crcTable ((WritePage crcTable Writer.fresh Page.oneByte).1.bytes.take 27)
      = (.error .EOF, []) ∧
    ReadPage crcTable ((WritePage crcTable Writer.fresh Page.oneByte).1.bytes.take 28)
      = (.error .EOF, []) ∧
    ReadPage crcTable ((WritePage crcTable Writer.fresh Page.oneByte).1.bytes.take 26)
      = (.error .ErrUnexpectedEOF, []) := by
  refine ⟨rfl, ?_, rfl, ?_, rfl, rfl, rfl⟩
  · intro p n hlen hr hsum hn
    rw [WritePage_bytes crcTable p hlen] at hn ⊢
    exact ReadPage_truncated crcTable p n hlen hr hsum hn
  · refine ⟨Page.oneByte.decoded crcTable, ?_⟩
    rw [WritePage_bytes crcTable Page.oneByte (by decide)]
    have := ReadPage_encode_append crcTable Page.oneByte [] (by decide) (by decide) (by decide)
    rwa [List.append_nil] at this

/-- Witness for C9: the page with segment table `[1]` and data `[7]`, cut after 27 bytes. -/
theorem C9_ReadPage_truncation_witness :
    ReadPage (fun _ => 0) ((WritePage (fun _ => 0) Writer.fresh Page.oneByte).1.bytes.take 27)
      = (.error (if (27 : Nat) = 0 ∨ (27 : Nat) = 27 ∨ 27 = 27 + Page.oneByte.SegTable.length
                 then .EOF else .ErrUnexpectedEOF), []) :=
  (C9_ReadPage_truncation (fun _ => 0)).2.1 Page.oneByte 27 (by decide) (by decide) (by decide)
    (by decide)

/-- C10, as amended. Bad capture pattern: for every input stream of at least 27 bytes whose
first four bytes are not "OggS", `ReadPage` fails with the capture-pattern error and the reader
has delivered exactly the 27 header bytes: no segment table or data byte is read. -/
theorem C10_ReadPage_bad_capture (crcTable : Nat → Nat) (r : List Nat)
    (hlen : 27 ≤ r.length) (hcap : r.take 4 ≠ [0x4F, 0x67, 0x67, 0x53]) :
    ReadPage crcTable r = (.error .badCapturePattern, r.drop 27) := by
  have h4 : (r.take 27).take 4 = r.take 4 := by
    rw [List.take_take]; rfl
  simp only [ReadPage, readFull, headsz, if_pos hlen, h4, capturePattern, ne_eq, hcap,
    not_false_eq_true, if_true]

/-- Witness for C10: a stream of 30 bytes that starts with zeros. -/
theorem C10_ReadPage_bad_capture_witness :
    ReadPage (fun _ => 0) (List.replicate 27 0 ++ [1, 2, 3])
      = (.error .badCapturePattern, (List.replicate 27 0 ++ [1, 2, 3]).drop 27) :=
  C10_ReadPage_bad_capture (fun _ => 0) (List.replicate 27 0 ++ [1, 2, 3]) (by decide)
    (by decide)

/-- C10 as stated fails: the stream `0, 0, 0, 0` does not start with "OggS", and `ReadPage`
fails on it with `io.ErrUnexpectedEOF`, not with the capture-pattern error. -/
theorem C10_ReadPage_short_stream_counterexample :
    ([0, 0, 0, 0] : List Nat).take 4 ≠ [0x4F, 0x67, 0x67, 0x53] ∧
    ReadPage (fun _ => 0) [0, 0, 0, 0] = (.error .ErrUnexpectedEOF, []) :=
  ⟨by decide, rfl⟩

/-- C12. Every page `ReadPage` accepts satisfies the page invariants: when `ReadPage` returns a
page from a stream of bytes, the page has at most 255 segment lengths, each in 0..255, data as
long as their sum, and a `Crc` equal to `extendCrc32` from seed 0 over the 27 header bytes read
with bytes 22..25 zeroed, then the segment table bytes, then the data; conversely a fully
available page whose stored checksum differs from the recomputed one is rejected with the
checksum-mismatch error. -/
theorem C12_ReadPage_invariants (crcTable : Nat → Nat) :
    (∀ (r rest : List Nat) (p : Page), (∀ b ∈ r, b < 256) →
      ReadPage crcTable r = (.ok p, rest) →
      p.SegTable.length ≤ 255 ∧ (∀ s ∈ p.SegTable, 0 ≤ s ∧ s ≤ 255) ∧
      (p.Data.length : Int) = p.SegTable.sum ∧
      p.Crc = extendCrc32 crcTable 0
        (r.take 22 ++ [0, 0, 0, 0] ++ (r.drop 26).take 1
          ++ (r.drop 27).take p.SegTable.length ++ p.Data)) ∧
    (∀ header segtbl data rest : List Nat, header.length = 27 →
      header.take 4 = [0x4F, 0x67, 0x67, 0x53] → header.getD 4 0 = 0 →
      segtbl.length = header.getD 26 0 → data.length = segtbl.sum →
      byteOrder.Uint32 ((header.drop 22).take 4)
        ≠ extendCrc32 crcTable 0
            (header.take 22 ++ [0, 0, 0, 0] ++ header.drop 26 ++ segtbl ++ data) →
      ReadPage crcTable (header ++ (segtbl ++ (data ++ rest)))
        = (.error (.invalidCrc
            (extendCrc32 crcTable 0
              (header.take 22 ++ [0, 0, 0, 0] ++ header.drop 26 ++ segtbl ++ data))
            (byteOrder.Uint32 ((header.drop 22).take 4))), rest)) := by
  constructor
  · intro r rest p hbytes h
    obtain ⟨header, segtbl, hr, hl, -, -, -, -, -, -, -, hseg, hst, hdl, hcrc⟩ :=
      ReadPage_ok_inv crcTable r rest p h
    have h26 : header.getD 26 0 < 256 := by
      have hmem : header.getD 26 0 ∈ r := by
        rw [hr, List.getD_eq_getElem _ _ (by omega)]
        exact List.mem_append_left _ (List.getElem_mem _)
      exact hbytes _ hmem
    have hsegb : ∀ b ∈ segtbl, b < 256 := fun b hb =>
      hbytes b (by rw [hr]; simp [hb])
    refine ⟨?_, ?_, ?_, ?_⟩
    · rw [hst, List.length_map]; omega
    · intro s hs
      rw [hst, List.mem_map] at hs
      obtain ⟨b, hb, rfl⟩ := hs
      have := hsegb b hb
      simp only [Int.ofNat_eq_coe]
      omega
    · rw [hst, sum_map_ofNat, hdl]
    · rw [← hcrc]
      congr 1
      have e1 : r.take 22 = header.take 22 := by
        rw [hr, List.take_append_of_le_length (by omega)]
      have e2 : (r.drop 26).take 1 = header.drop 26 := by
        rw [hr, List.drop_append_of_le_length (by omega),
          List.take_append_of_le_length (by simp; omega), List.take_of_length_le (by simp; omega)]
      have e3 : (r.drop 27).take p.SegTable.length = segtbl := by
        rw [hr, hst, List.length_map, ← hl, List.drop_left, List.take_left]
      rw [e1, e2, e3]
  · intro header segtbl data rest hl hcap hver hseg hdata hne
    rw [ReadPage_framed crcTable header segtbl data rest hl hcap hver hseg hdata,
      if_neg (fun h => hne h.symm)]

/-- Witness for C12: the page read back from the encoding of `Page.oneByte`. -/
theorem C12_ReadPage_invariants_witness :
    (∀ b ∈ Page.oneByte.encode (fun _ => 0), b < 256) ∧
    ReadPage (fun _ => 0) (Page.oneByte.encode (fun _ => 0))
      = (.ok (Page.oneByte.decoded (fun _ => 0)), []) ∧
    (Page.oneByte.decoded (fun _ => 0)).SegTable.length ≤ 255 ∧
    (∀ s ∈ (Page.oneByte.decoded (fun _ => 0)).SegTable, 0 ≤ s ∧ s ≤ 255) ∧
    (((Page.oneByte.decoded (fun _ => 0)).Data.length : Nat) : Int)
      = (Page.oneByte.decoded (fun _ => 0)).SegTable.sum :=
  ⟨by decide, rfl,
    ((C12_ReadPage_invariants (fun _ => 0)).1 (Page.oneByte.encode (fun _ => 0)) []
      (Page.oneByte.decoded (fun _ => 0)) (by decide) rfl).1,
    ((C12_ReadPage_invariants (fun _ => 0)).1 (Page.oneByte.encode (fun _ => 0)) []
      (Page.oneByte.decoded (fun _ => 0)) (by decide) rfl).2.1,
    ((C12_ReadPage_invariants (fun _ => 0)).1 (Page.oneByte.encode (fun _ => 0)) []
      (Page.oneByte.decoded (fun _ => 0)) (by decide) rfl).2.2.1⟩

/-- C13. Oversized segment table is rejected before any output: with a writer that never
fails, `WritePage` returns the error "segment table too long" exactly when the page has more
than 255 segment table entries, and when it does the writer has received nothing. -/
theorem C13_WritePage_segment_table_too_long (crcTable : Nat → Nat) (w : Writer) (p : Page)
    (hw : w.failAfter = none) :
    ((WritePage crcTable w p).2 = some .segTableTooLong ↔ p.SegTable.length > 255) ∧
    ((WritePage crcTable w p).2 = some .segTableTooLong → (WritePage crcTable w p).1 = w) := by
  by_cases h : p.SegTable.length > 255
  · simp [WritePage, h]
  · have := WritePage_ok crcTable w p hw (by omega)
    simp [this, h]

/-- Witness for C13: a page with 256 segment table entries is rejected. -/
theorem C13_WritePage_segment_table_too_long_witness :
    Writer.fresh.failAfter = none ∧
    ((WritePage (fun _ => 0) Writer.fresh
        { Page.small with SegTable := List.replicate 256 0 }).2 = some .segTableTooLong
      ↔ ({ Page.small with SegTable := List.replicate 256 0 } : Page).SegTable.length > 255) ∧
    ((WritePage (fun _ => 0) Writer.fresh
        { Page.small with SegTable := List.replicate 256 0 }).2 = some .segTableTooLong →
      (WritePage (fun _ => 0) Writer.fresh
        { Page.small with SegTable := List.replicate 256 0 }).1 = Writer.fresh) :=
  ⟨rfl, C13_WritePage_segment_table_too_long (fun _ => 0) Writer.fresh
    { Page.small with SegTable := List.replicate 256 0 } rfl⟩

/-- C14. Incremental checksum extension: `extendCrc32 (extendCrc32 c a) b` is
`extendCrc32 c (a ++ b)` and `extendCrc32 c []` is `c`, where one byte `n` takes a 32-bit `c`
to `table[(c >> 24) xor n] xor (c << 8 mod 2^32)`; hence the checksum `ReadPage` accumulates in
three calls over header, segment table and data is the checksum of their concatenation, which
is the one `WritePage` computes. -/
theorem C14_extendCrc32_incremental (crcTable : Nat → Nat) :
    (∀ (c : Nat) (a b : List Nat),
      extendCrc32 crcTable (extendCrc32 crcTable c a) b = extendCrc32 crcTable c (a ++ b)) ∧
    (∀ c : Nat, extendCrc32 crcTable c [] = c) ∧
    (∀ (c n : Nat) (d : List Nat), c < 4294967296 → (∀ i, crcTable i < 4294967296) →
      extendCrc32 crcTable c (n :: d)
        = extendCrc32 crcTable
            (crcTable ((c >>> 24) ^^^ n) ^^^ ((c <<< 8) % 4294967296)) d) ∧
    (∀ header segtbl data : List Nat,
      extendCrc32 crcTable (extendCrc32 crcTable (extendCrc32 crcTable 0 header) segtbl) data
        = extendCrc32 crcTable 0 (header ++ segtbl ++ data)) ∧
    (∀ p : Page,
      extendCrc32 crcTable
          (extendCrc32 crcTable (extendCrc32 crcTable 0 (headerBytes p 0)) (segBytes p)) p.Data
        = WritePage.crc crcTable p) := by
  refine ⟨fun c a b => (extendCrc32_append crcTable c a b).symm, fun c => rfl, ?_, ?_, ?_⟩
  · intro c n d hc htbl
    have h1 : (c >>> 24) % 256 = c >>> 24 := by
      apply Nat.mod_eq_of_lt
      rw [Nat.shiftRight_eq_div_pow]
      omega
    simp only [extendCrc32, List.foldl_cons, h1, Nat.mod_eq_of_lt (htbl _)]
  · intro header segtbl data
    simp [extendCrc32_append]
  · intro p
    simp [WritePage.crc, crc32, head_eq, extendCrc32_append]

/-- Witness for C14: one checksum step from seed 1 with the identity-like table. -/
theorem C14_extendCrc32_incremental_witness :
    extendCrc32 (fun i => i % 4294967296) 1 (2 :: [3])
      = extendCrc32 (fun i => i % 4294967296)
          ((fun i => i % 4294967296) ((1 >>> 24) ^^^ 2) ^^^ ((1 <<< 8) % 4294967296)) [3] :=
  (C14_extendCrc32_incremental (fun i => i % 4294967296)).2.2.1 1 2 [3] (by decide)
    (fun i => Nat.mod_lt i (by decide))

/-- C15. `WritePage` ignores the stored `Crc`: two pages that differ only in `Crc` are written
identically (to any writer), and for a page with at most 255 segment table entries bytes
22..25 of the output are the big-endian checksum of the whole output taken with bytes 22..25
set to zero. -/
theorem C15_WritePage_ignores_Crc (crcTable : Nat → Nat) (w : Writer) (p : Page) (c : Nat)
    (hlen : p.SegTable.length ≤ 255) :
    WritePage crcTable w { p with Crc := c } = WritePage crcTable w p ∧
    ((WritePage crcTable Writer.fresh p).1.bytes.drop 22).take 4
      = byteOrder.PutUint32 (extendCrc32 crcTable 0
          ((WritePage crcTable Writer.fresh p).1.bytes.take 22 ++ [0, 0, 0, 0]
            ++ (WritePage crcTable Writer.fresh p).1.bytes.drop 26)) ∧
    byteOrder.Uint32 (((WritePage crcTable Writer.fresh p).1.bytes.drop 22).take 4)
      = extendCrc32 crcTable 0
          ((WritePage crcTable Writer.fresh p).1.bytes.take 22 ++ [0, 0, 0, 0]
            ++ (WritePage crcTable Writer.fresh p).1.bytes.drop 26) := by
  have hb := WritePage_bytes crcTable p hlen
  have hz := Page.encode_zeroed crcTable p
  have hc := Page.encode_crc_bytes crcTable p
  have hcrc := WritePage.crc_eq crcTable p
  refine ⟨rfl, ?_, ?_⟩
  · rw [hb, hz, hc, hcrc]
  · rw [hb, hz, hc, byteOrder.Uint32_PutUint32,
      Nat.mod_eq_of_lt (WritePage.crc_lt crcTable p), hcrc]

/-- Witness for C15: the page `Page.small` with its `Crc` replaced by 77. -/
theorem C15_WritePage_ignores_Crc_witness :
    Page.small.SegTable.length ≤ 255 ∧
    WritePage (fun _ => 0) Writer.fresh { Page.small with Crc := 77 }
      = WritePage (fun _ => 0) Writer.fresh Page.small :=
  ⟨by decide, (C15_WritePage_ignores_Crc (fun _ => 0) Writer.fresh Page.small 77
    (by decide)).1⟩

/-- C16, as amended. `WritePage` hands a page of at most 255 segment table entries to the
writer in two `Write` calls: the first with the 27-byte header and the segment table, the
second with `Data`.  When neither call fails both arguments are written in full and no error is
returned.  When the first call fails `WritePage` returns its error without making the second
call, and the writer has taken the initial part of the header and segment table it consumed
before it failed.  When the second call fails `WritePage` returns its error after the header
and segment table have been written in full, followed by the initial part of the data the
writer consumed before it failed. -/
theorem C16_WritePage_two_writes (crcTable : Nat → Nat) (w : Writer) (p : Page)
    (hlen : p.SegTable.length ≤ 255) :
    (w.failAfter = none →
      WritePage crcTable w p
        = (Writer.mk (w.written ++ [WritePage.head p (WritePage.crc crcTable p), p.Data])
            none w.short, none)) ∧
    (∀ k : Nat, w.failAfter = some (k + 2) →
      WritePage crcTable w p
        = (Writer.mk (w.written ++ [WritePage.head p (WritePage.crc crcTable p), p.Data])
            (some k) w.short, none)) ∧
    (WritePage.head p (WritePage.crc crcTable p)).length = 27 + p.SegTable.length ∧
    (w.failAfter = some 0 →
      WritePage crcTable w p
        = (Writer.mk
            (w.written ++ [(WritePage.head p (WritePage.crc crcTable p)).take w.short])
            (some 0) w.short, some .writeFailed)) ∧
    (w.failAfter = some 1 →
      WritePage crcTable w p
        = (Writer.mk
            (w.written ++ [WritePage.head p (WritePage.crc crcTable p), p.Data.take w.short])
            (some 0) w.short, some .writeFailed)) := by
  have hn : ¬ p.SegTable.length > 255 := by omega
  refine ⟨?_, ?_, ?_, ?_, ?_⟩
  · intro hw
    rw [WritePage_ok crcTable w p hw hlen, ← hw]
  · intro k hw
    simp [WritePage, Writer.Write, hw, hn]
  · rw [head_eq, List.length_append, headerBytes_length, segBytes_length]
  · intro hw
    simp [WritePage, Writer.Write, hw, hn]
  · intro hw
    simp [WritePage, Writer.Write, hw, hn]

/-- Witness for C16: the page `Page.oneByte` written to a writer whose second call fails. -/
theorem C16_WritePage_two_writes_witness :
    Page.oneByte.SegTable.length ≤ 255 ∧ Writer.failingSecond.failAfter = some 1 ∧
    WritePage (fun _ => 0) Writer.failingSecond Page.oneByte
      = (Writer.mk
          (Writer.failingSecond.written
            ++ [WritePage.head Page.oneByte (WritePage.crc (fun _ => 0) Page.oneByte),
                Page.oneByte.Data.take Writer.failingSecond.short])
          (some 0) Writer.failingSecond.short, some .writeFailed) :=
  ⟨by decide, rfl, (C16_WritePage_two_writes (fun _ => 0) Writer.failingSecond Page.oneByte
    (by decide)).2.2.2.2 rfl⟩

/-- C16 as stated fails: for the page with segment table `[1]` and data `[7]`, whose encoding
has 29 bytes, `WritePage` makes two `Write` calls on a writer that never fails, the first with
28 bytes and the second with the data byte.  On a writer whose second call fails it returns the
error after the 28 bytes of header and segment table, a proper initial part of the page, have
been written.  On a writer whose first call fails after consuming five bytes it returns the
error after one call, and the writer holds the first five bytes of the page. -/
theorem C16_WritePage_one_write_counterexample :
    (WritePage (fun _ => 0) Writer.fresh Page.oneByte).1.written.length = 2 ∧
    (WritePage (fun _ => 0) Writer.fresh Page.oneByte).1.written.map List.length = [28, 1] ∧
    (WritePage (fun _ => 0) Writer.fresh Page.oneByte).2 = none ∧
    (WritePage (fun _ => 0) Writer.failingSecond Page.oneByte).2 = some .writeFailed ∧
    (WritePage (fun _ => 0) Writer.failingSecond Page.oneByte).1.bytes
      = (Page.oneByte.encode (fun _ => 0)).take 28 ∧
    (Page.oneByte.encode (fun _ => 0)).length = 29 ∧
    (WritePage (fun _ => 0) Writer.failingFirst Page.oneByte).2 = some .writeFailed ∧
    (WritePage (fun _ => 0) Writer.failingFirst Page.oneByte).1.written.length = 1 ∧
    (WritePage (fun _ => 0) Writer.failingFirst Page.oneByte).1.bytes
      = (Page.oneByte.encode (fun _ => 0)).take 5 :=
  ⟨rfl, rfl, rfl, rfl, rfl, rfl, rfl, rfl, rfl⟩

/-- C17. The first three packets are delivered unmodified and in order: for every sequence of
well-formed pages whose segment tables, read in order, delimit at least three complete packets
(a segment length below 255 ends a packet; packets may end inside a page and may span pages),
the page loop of `ReadOggVorbis`, reading the pages as `WritePage` encodes them, reaches the
label `ex` without error or panic, and there `headerPacket` holds the first, second and third
packet. -/
theorem C17_ReadOggVorbis_header_packets (crcTable : Nat → Nat) (ps : List Page) (fuel : Nat)
    (hvalid : ∀ p ∈ ps, p.SegTable.length ≤ 255 ∧ (∀ s ∈ p.SegTable, 0 ≤ s ∧ s ≤ 255) ∧
      (p.Data.length : Int) = p.SegTable.sum)
    (h3 : 3 ≤ (packetsOfPages ps).length) (hfuel : ps.length < fuel) :
    ∃ oggv : OggVorbis,
      ReadOggVorbis.pageLoop crcTable fuel
          (ps.map (fun p => (WritePage crcTable Writer.fresh p).1.bytes)).flatten
          OggVorbis.zero 0
        = some (.ok (.ok oggv)) ∧
      oggv.headerPacket = (packetsOfPages ps).take 3 := by
  have hbytes : ps.map (fun p => (WritePage crcTable Writer.fresh p).1.bytes)
      = ps.map (fun p => p.encode crcTable) :=
    List.map_congr_left (fun p hp => WritePage_bytes crcTable p (hvalid p hp).1)
  obtain ⟨oggv, k, hloop, hrun⟩ := ReadOggVorbis.pageLoop_eq crcTable ps hvalid fuel
    OggVorbis.zero 0 hfuel rfl (by omega)
  refine ⟨oggv, ?_, ?_⟩
  · rw [hbytes]; exact hloop
  · have h3b : 3 - 0 ≤ (packetsOfSegments []
        (ps.map (fun p => Page.segments p.SegTable p.Data)).flatten).length := h3
    have hs := runSegments_packets
      (ps.map (fun p => Page.segments p.SegTable p.Data)).flatten [] [] 0 (by omega) rfl h3b
    have h1 := congrArg Prod.fst hrun
    simp only at h1
    rw [h1]
    exact hs

/-- Witness for C17: one page with three packets of one byte each. -/
theorem C17_ReadOggVorbis_header_packets_witness :
    3 ≤ (packetsOfPages [Page.threePackets]).length ∧
    ∃ oggv : OggVorbis,
      ReadOggVorbis.pageLoop (fun _ => 0) 2
          ([Page.threePackets].map
            (fun p => (WritePage (fun _ => 0) Writer.fresh p).1.bytes)).flatten
          OggVorbis.zero 0
        = some (.ok (.ok oggv)) ∧
      oggv.headerPacket = (packetsOfPages [Page.threePackets]).take 3 :=
  ⟨by decide, C17_ReadOggVorbis_header_packets (fun _ => 0) [Page.threePackets] 2
    (by decide) (by decide) (by decide)⟩

/-- C18 fails on the code: for every image recognised as JPEG or PNG with width `W` and height
`H`, the frame `GenerateImageComment` builds holds the width `W` in the width field and again
in the height field; the height `H` is never written.  For a PNG image 2 wide and 1 high the
eight bytes after the description are `2, 0, 0, 0, 2, 0, 0, 0`, where the layout asks for
`2, 0, 0, 0, 1, 0, 0, 0`. -/
theorem C18_GenerateImageComment_height (mimeType img imgDescription : List Nat)
    (imgType : Nat) (W H : Int) :
    (mimeType = imageJpeg ∨ mimeType = imagePng →
      GenerateImageComment mimeType (some (W, H)) img imgDescription imgType
        = .ok (littleEndian.PutUint32 imgType
            ++ littleEndian.PutUint32 (mimeType.length % 4294967296) ++ mimeType
            ++ littleEndian.PutUint32 (imgDescription.length % 4294967296) ++ imgDescription
            ++ littleEndian.PutUint32 (W % 4294967296).toNat
            ++ littleEndian.PutUint32 (W % 4294967296).toNat
            ++ littleEndian.PutUint32 8 ++ littleEndian.PutUint32 0
            ++ littleEndian.PutUint32 (img.length % 4294967296) ++ img)) ∧
    GenerateImageComment imagePng (some (2, 1)) [137, 80] [] 3
      = .ok ([3, 0, 0, 0] ++ [9, 0, 0, 0] ++ imagePng ++ [0, 0, 0, 0]
          ++ [2, 0, 0, 0] ++ [2, 0, 0, 0] ++ [8, 0, 0, 0] ++ [0, 0, 0, 0] ++ [2, 0, 0, 0]
          ++ [137, 80]) ∧
    GenerateImageComment imagePng (some (2, 1)) [137, 80] [] 3
      ≠ .ok ([3, 0, 0, 0] ++ [9, 0, 0, 0] ++ imagePng ++ [0, 0, 0, 0]
          ++ [2, 0, 0, 0] ++ littleEndian.PutUint32 1 ++ [8, 0, 0, 0] ++ [0, 0, 0, 0]
          ++ [2, 0, 0, 0] ++ [137, 80]) := by
  refine ⟨?_, rfl, ?_⟩
  · intro h
    simp only [GenerateImageComment, if_pos h]
  · intro h
    have h2 := Except.ok.inj h
    revert h2
    decide

/-- Witness for C18: a JPEG image 640 wide and 480 high. -/
theorem C18_GenerateImageComment_height_witness :
    GenerateImageComment imageJpeg (some (640, 480)) [255, 216] [] 3
      = .ok (littleEndian.PutUint32 3
          ++ littleEndian.PutUint32 (imageJpeg.length % 4294967296) ++ imageJpeg
          ++ littleEndian.PutUint32 (([] : List Nat).length % 4294967296) ++ []
          ++ littleEndian.PutUint32 ((640 : Int) % 4294967296).toNat
          ++ littleEndian.PutUint32 ((640 : Int) % 4294967296).toNat
          ++ littleEndian.PutUint32 8 ++ littleEndian.PutUint32 0
          ++ littleEndian.PutUint32 (([255, 216] : List Nat).length % 4294967296)
          ++ [255, 216]) :=
  (C18_GenerateImageComment_height imageJpeg [255, 216] [] 3 640 480).1 (Or.inl rfl)

/-- C19. Decode-then-encode round trip: when `ReadPage` succeeds on a stream of bytes, returning
the page `p` and leaving `rest` unread, `WritePage` of `p` to a writer that never fails returns
no error and the bytes it emits, followed by `rest`, are the stream: the emitted bytes are
exactly the bytes `ReadPage` consumed. -/
theorem C19_ReadPage_WritePage_roundtrip (crcTable : Nat → Nat) (w : Writer)
    (r rest : List Nat) (p : Page) (hw : w.failAfter = none) (hbytes : ∀ b ∈ r, b < 256)
    (h : ReadPage crcTable r = (.ok p, rest)) :
    ∃ out : List (List Nat),
      WritePage crcTable w p = ({ w with written := w.written ++ out }, none) ∧
      out.flatten ++ rest = r := by
  obtain ⟨header, segtbl, hr, hl, hcap, hver, htyp, hgran, hser, hseq, hcrcf, hseg, hst, hdl,
    hcrc⟩ := ReadPage_ok_inv crcTable r rest p h
  have hhb : ∀ b ∈ header, b < 256 := fun b hb => hbytes b (by rw [hr]; simp [hb])
  have hsb : ∀ b ∈ segtbl, b < 256 := fun b hb => hbytes b (by rw [hr]; simp [hb])
  have h26 : header.getD 26 0 < 256 := by
    rw [List.getD_eq_getElem _ _ (by omega)]
    exact hhb _ (List.getElem_mem _)
  have hn : p.SegTable.length = header.getD 26 0 := by
    rw [hst, List.length_map, hseg]
  have hlen : p.SegTable.length ≤ 255 := by omega
  have hsegb := segBytes_of_bytes p segtbl hst hsb
  have hb := fun x => headerBytes_of_header header p x hl hhb hcap hver htyp hgran hser hseq hn
  have hcrc4 : ∀ b ∈ (header.drop 22).take 4, b < 256 := fun b hb =>
    hhb b (List.mem_of_mem_drop (List.mem_of_mem_take hb))
  have hzero : byteOrder.PutUint32 0 = [0, 0, 0, 0] := rfl
  have hwc : WritePage.crc crcTable p = p.Crc := by
    rw [WritePage.crc_eq, head_eq, hb 0, hsegb, hzero, ← hcrc]
  have hput : byteOrder.PutUint32 p.Crc = (header.drop 22).take 4 := by
    rw [hcrcf]
    have hl4 : ((header.drop 22).take 4).length = 4 := by
      rw [List.length_take, List.length_drop]; omega
    rcases hq : (header.drop 22).take 4 with _ | ⟨a, _ | ⟨b, _ | ⟨c, _ | ⟨d, _ | ⟨e, t⟩⟩⟩⟩⟩
    all_goals rw [hq] at hl4 hcrc4
    all_goals first
      | (simp at hl4; done)
      | skip
    exact byteOrder.PutUint32_Uint32 a b c d (hcrc4 a (by simp)) (hcrc4 b (by simp))
      (hcrc4 c (by simp)) (hcrc4 d (by simp))
  have hhead : WritePage.head p (WritePage.crc crcTable p) = header ++ segtbl := by
    rw [head_eq, hwc, hb, hsegb, hput]
    congr 1
    have : header.take 22 ++ (header.drop 22).take 4 = header.take 26 := by
      rw [← List.take_add]
    rw [this, List.take_append_drop]
  refine ⟨[WritePage.head p (WritePage.crc crcTable p), p.Data],
    WritePage_ok crcTable w p hw hlen, ?_⟩
  rw [hhead, hr]
  simp

/-- Witness for C19: the 29 bytes of the encoding of `Page.oneByte`, followed by one byte. -/
theorem C19_ReadPage_WritePage_roundtrip_witness :
    ReadPage (fun _ => 0) (Page.oneByte.encode (fun _ => 0) ++ [9])
      = (.ok (Page.oneByte.decoded (fun _ => 0)), [9]) ∧
    ∃ out : List (List Nat),
      WritePage (fun _ => 0) Writer.fresh (Page.oneByte.decoded (fun _ => 0))
        = ({ Writer.fresh with written := Writer.fresh.written ++ out }, none) ∧
      out.flatten ++ [9] = Page.oneByte.encode (fun _ => 0) ++ [9] :=
  ⟨rfl, C19_ReadPage_WritePage_roundtrip (fun _ => 0) Writer.fresh
    (Page.oneByte.encode (fun _ => 0) ++ [9]) [9] (Page.oneByte.decoded (fun _ => 0)) rfl
    (by decide) rfl⟩

/-- C20. Comment header round trip: for every vendor string and list of comments whose packet,
as `updateCommentFieldPacket` builds it, is shorter than 2^32 bytes, that packet is 0x03,
"vorbis", the little-endian vendor length, the vendor string, the little-endian comment count,
every comment as little-endian length and text, and the framing byte 1; and on every struct
`oggv` that holds this packet in `headerPacket[1]`, whatever its other fields hold (in
`ReadOggVorbis` they start from the zero value `OggVorbis{}`), the comment header parsing of
`ReadOggVorbis` returns without error or panic the struct with `VendorString` and `Comments`
set to the original ones, in order, and nothing else changed. -/
theorem C20_comment_header_roundtrip (o : OggVorbis) (h3 : o.headerPacket.length = 3)
    (hsize : ((updateCommentFieldPacket o).headerPacket.getD 1 []).length < 4294967296) :
    (updateCommentFieldPacket o).headerPacket.getD 1 []
      = [0x3] ++ (vorbisMagic ++ (littleEndian.PutUint32 o.VendorString.length
          ++ (o.VendorString ++ (littleEndian.PutUint32 o.Comments.length
            ++ ((o.Comments.map
                  (fun r => littleEndian.PutUint32 (r.length % 4294967296) ++ r)).flatten
              ++ [1]))))) ∧
    (∀ r ∈ o.Comments, r.length < 4294967296) ∧
    ∀ oggv : OggVorbis,
      oggv.headerPacket.getD 1 [] = (updateCommentFieldPacket o).headerPacket.getD 1 [] →
      ReadOggVorbis.parseHeader oggv
        = .ok (.ok (OggVorbis.mk oggv.headerPacket oggv.postPages o.VendorString o.Comments)) := by
  have hp := updateCommentFieldPacket_packet o h3 hsize
  have hsize2 := hsize
  rw [hp] at hsize2
  refine ⟨hp, ?_, fun oggv hpk => ReadOggVorbis.parseHeader_commentPacket oggv
    o.VendorString o.Comments (hpk.trans hp) hsize2⟩
  intro r hr
  rw [commentPacket_length] at hsize2
  have hmem : (commentBytes r).length ≤ ((o.Comments.map commentBytes).flatten).length := by
    obtain ⟨a, b, hab⟩ := List.append_of_mem hr
    rw [hab]
    simp only [List.map_append, List.map_cons, List.flatten_append, List.flatten_cons,
      List.length_append]
    omega
  rw [commentBytes_length] at hmem
  omega

/-- Witness for C20: the vendor string "AB" with three comments; the packet built for them is
parsed from the zero value `OggVorbis{}` with only `headerPacket[1]` filled, whose
`VendorString` and `Comments` are empty before the parse. -/
theorem C20_comment_header_roundtrip_witness :
    OggVorbis.sample.headerPacket.length = 3 ∧
    OggVorbis.sample.VendorString = [65, 66] ∧
    OggVorbis.sample.Comments = [[1, 2, 3], [], [9]] ∧
    (updateCommentFieldPacket OggVorbis.sample).headerPacket.getD 1 []
      = [3, 118, 111, 114, 98, 105, 115, 2, 0, 0, 0, 65, 66, 3, 0, 0, 0,
         3, 0, 0, 0, 1, 2, 3, 0, 0, 0, 0, 1, 0, 0, 0, 9, 1] ∧
    ReadOggVorbis.parseHeader
        (OggVorbis.mk
          (OggVorbis.zero.headerPacket.set 1
            ((updateCommentFieldPacket OggVorbis.sample).headerPacket.getD 1 []))
          [] [] [])
      = .ok (.ok (OggVorbis.mk
          (OggVorbis.zero.headerPacket.set 1
            ((updateCommentFieldPacket OggVorbis.sample).headerPacket.getD 1 []))
          [] [65, 66] [[1, 2, 3], [], [9]])) :=
  ⟨rfl, rfl, rfl, by decide,
    (C20_comment_header_roundtrip OggVorbis.sample rfl (by decide)).2.2
      (OggVorbis.mk
        (OggVorbis.zero.headerPacket.set 1
          ((updateCommentFieldPacket OggVorbis.sample).headerPacket.getD 1 []))
        [] [] [])
      rfl⟩

end Ogg
